import Mathlib

/-!
# Kronus userspace I/O platform driver (`kronus_uio.c`)

A shallow embedding of the driver: the two interrupt callbacks
(`kronus_uio_handler`, `kronus_uio_irqcontrol`), the attach routine
(`kronus_uio_probe`) and the driver registration record (`kronus_uio`).

Conventions of the embedding.

* Device registers are 32-bit words reached through `iowrite32`; the I/O
  memory is a map from addresses to words, and a register of the window
  mapped at `base` lives at `base + offset`.
* Everything the driver does to the outside world (lock operations, bus
  accesses, kernel services) is appended to a trace, oldest event first.
* A pointer that may be `NULL` is an `Option`; dereferencing `NULL` is the
  outcome `none` of the function that does it.
* Each function is one uncontended, sequential execution of its C body.
-/

namespace KronusUio

/-! ## Constants of the driver (lines 21-28) -/

def DRIVER_NAME : String := "kronus-uio"

def KRONUS_STAT_REG : Nat := 0x00
def KRONUS_CTRL_REG : Nat := 0x10

def KRONUS_CTRL_RESET : Nat := 0x001
def KRONUS_CTRL_IRQ_MASK : Nat := 0x000
def KRONUS_CTRL_IRQ_EN : Nat := 0xFF0

/-! ## Constants of the kernel headers the driver uses -/

def ENXIO : Int := 6
def ENOMEM : Int := 12
def EINVAL : Int := 22
def EPROBE_DEFER : Int := 517
def MAX_ERRNO : Nat := 4095

def UIO_IRQ_NONE : Int := 0
def UIO_MEM_PHYS : Nat := 1
abbrev MAX_UIO_MAPS : Nat := 5
def IRQF_SHARED : Nat := 0x00000080

/-- Values of the kernel's `enum irqreturn`. -/
inductive irqreturn_t where
  | IRQ_NONE
  | IRQ_HANDLED
  | IRQ_WAKE_THREAD
  deriving DecidableEq, Repr

/-! ## Machine state -/

/-- Managed (`devm_`) resources a device holds; the driver core releases them
at detach, newest first. -/
inductive devres_t where
  | info_mem
  | name_mem
  | priv_mem
  | iomap (base : Nat)
  | uio_device
  deriving DecidableEq, Repr

/-- Observable actions of the driver and of the driver core. -/
inductive Event where
  | spin_lock
  | spin_unlock
  | spin_lock_irqsave
  | spin_unlock_irqrestore
  | iowrite32 (val : Nat) (addr : Nat)
  | ioread32 (addr : Nat)
  | devm_kzalloc
  | of_property_read_string
  | devm_kstrdup
  | devm_kasprintf
  | platform_get_irq_optional
  | platform_get_resource
  | devm_ioremap_resource
  | devm_uio_register_device
  | dev_err (msg : String)
  | dev_notice (msg : String)
  | devres_release (r : devres_t)
  deriving DecidableEq, Repr

/-- The part of the machine the driver acts on. -/
structure Machine where
  /-- content of I/O memory, by address -/
  iomem : Nat → Nat
  /-- actions performed so far, oldest first -/
  trace : List Event
  /-- managed resources held by the device, oldest first -/
  devres : List devres_t

/-- Append one event to the trace. -/
def Machine.emit (m : Machine) (e : Event) : Machine :=
  { m with trace := m.trace ++ [e] }

/-- True for a bus write. -/
def Event.isWrite : Event → Bool
  | .iowrite32 _ _ => true
  | _ => false

/-- True for a bus read. -/
def Event.isRead : Event → Bool
  | .ioread32 _ => true
  | _ => false

/-- The kernel's `iowrite32(val, addr)`: one 32-bit store that replaces the
whole word at `addr`. -/
def iowrite32 (val : Nat) (addr : Nat) (m : Machine) : Machine :=
  { m with
    iomem := Function.update m.iomem addr (val % 2 ^ 32)
    trace := m.trace ++ [Event.iowrite32 (val % 2 ^ 32) addr] }

def spin_lock (m : Machine) : Machine := m.emit Event.spin_lock
def spin_unlock (m : Machine) : Machine := m.emit Event.spin_unlock
def spin_lock_irqsave (m : Machine) : Machine := m.emit Event.spin_lock_irqsave
def spin_unlock_irqrestore (m : Machine) : Machine := m.emit Event.spin_unlock_irqrestore

/-! ## Data structures -/

/-- The driver's `struct kronus_uio_platdata` (lines 30-35). The spinlock is
represented by its events in the trace; the back pointers `info` and `pdev`
are never followed by the callbacks and carry no data of their own. -/
structure kronus_uio_platdata where
  base : Nat
  deriving DecidableEq, Repr

/-- Possible values of the function pointer `uio_info.handler`. -/
inductive handler_t where
  | kronus_uio_handler
  | foreign (tag : Nat)
  deriving DecidableEq, Repr

/-- Possible values of the function pointer `uio_info.irqcontrol`. -/
inductive irqcontrol_t where
  | kronus_uio_irqcontrol
  | foreign (tag : Nat)
  deriving DecidableEq, Repr

/-- The kernel's `struct uio_mem`, fields the driver touches. -/
structure uio_mem where
  name : Option String
  addr : Nat
  offs : Nat
  size : Nat
  memtype : Nat
  deriving DecidableEq, Repr

/-- The kernel's `struct uio_info`, fields the driver touches. -/
structure uio_info where
  name : Option String
  version : Option String
  mem : Fin MAX_UIO_MAPS → uio_mem
  irq : Int
  irq_flags : Nat
  priv : Option kronus_uio_platdata
  handler : Option handler_t
  irqcontrol : Option irqcontrol_t
  open_cb : Option Nat
  release : Option Nat

/-! ## Interrupt callbacks -/

/-- The interrupt handler (lines 37-46). `none` is the dereference of a
`NULL` `info->priv`. -/
def kronus_uio_handler (_irq : Int) (info : uio_info) (m : Machine) :
    Option (irqreturn_t × Machine) :=
  match info.priv with
  | none => none
  | some priv =>
    let m := spin_lock m
    let m := iowrite32 KRONUS_CTRL_IRQ_MASK (priv.base + KRONUS_CTRL_REG) m
    let m := spin_unlock m
    some (irqreturn_t.IRQ_HANDLED, m)

/-- The interrupt enable/disable entry point (lines 48-62). `irq_on` is the
`s32` argument; C takes any non-zero value as true. -/
def kronus_uio_irqcontrol (info : uio_info) (irq_on : Int) (m : Machine) :
    Option (Int × Machine) :=
  match info.priv with
  | none => none
  | some priv =>
    let m := spin_lock_irqsave m
    let m :=
      if irq_on ≠ 0 then
        iowrite32 KRONUS_CTRL_IRQ_EN (priv.base + KRONUS_CTRL_REG) m
      else
        iowrite32 KRONUS_CTRL_IRQ_MASK (priv.base + KRONUS_CTRL_REG) m
    let m := spin_unlock_irqrestore m
    some (0, m)

/-! ## Word arithmetic of the attach routine -/

/-- Bitwise complement of a `W`-bit unsigned word (C's `~`). -/
def bnot (W : Nat) (x : Nat) : Nat := 2 ^ W - 1 - x % 2 ^ W

/-- The kernel's `PAGE_MASK`, `~(PAGE_SIZE - 1)`, as a `W`-bit word. -/
def PAGE_MASK (W : Nat) (PAGE_SIZE : Nat) : Nat := bnot W (PAGE_SIZE - 1)

/-- Unsigned `W`-bit addition. -/
def uadd (W : Nat) (a b : Nat) : Nat := (a + b) % 2 ^ W

/-- Unsigned `W`-bit subtraction. -/
def usub (W : Nat) (a b : Nat) : Nat := (a % 2 ^ W + 2 ^ W - b % 2 ^ W) % 2 ^ W

/-- The kernel's `struct resource`, fields the driver reads. -/
structure resource where
  start : Nat
  end_ : Nat
  name : Option String
  deriving DecidableEq, Repr

/-- The kernel's `resource_size(res)`: `res->end - res->start + 1`. -/
def resource_size (W : Nat) (res : resource) : Nat :=
  uadd W (usub W res.end_ res.start) 1

/-- The kernel's `IS_ERR(ptr)`: the pointer lies in the last `MAX_ERRNO`
values of the address space. -/
def IS_ERR (W : Nat) (ptr : Nat) : Bool := decide (2 ^ W - MAX_ERRNO ≤ ptr)

/-- The kernel's `PTR_ERR(ptr)`: the pointer read as a signed `long`. -/
def PTR_ERR (W : Nat) (ptr : Nat) : Int :=
  if ptr < 2 ^ (W - 1) then (ptr : Int) else (ptr : Int) - 2 ^ W

/-- Conversion of a `long` to the `int` that `kronus_uio_probe` returns. -/
def int_of_long (x : Int) : Int := (x + 2 ^ 31) % 2 ^ 32 - 2 ^ 31

/-! ## Attach -/

/-- A device-tree node: its name (what `%pOFn` prints) and the string
property `linux,uio-name` when `of_property_read_string` finds it. -/
structure device_node where
  name : String
  uio_name : Option String

/-- The platform device handed to `kronus_uio_probe`: its platform data
(`dev_get_platdata`), its device-tree node, and its memory resource number 0
(`platform_get_resource(pdev, IORESOURCE_MEM, 0)`). -/
structure platform_device where
  platform_data : Option uio_info
  of_node : Option device_node
  mem0 : Option resource

/-- Configuration of the kernel and the outcomes of the kernel services that
one call of `kronus_uio_probe` uses. -/
structure Kernel where
  /-- width of `unsigned long`, of pointers and of `resource_size_t` -/
  BITS_PER_LONG : Nat
  PAGE_SIZE : Nat
  /-- `devm_kzalloc` of the `uio_info` succeeds -/
  kzalloc_info : Bool
  /-- `devm_kstrdup` or `devm_kasprintf` of the name succeeds -/
  name_alloc : Bool
  /-- `devm_kzalloc` of the private data succeeds -/
  kzalloc_priv : Bool
  /-- return value of `platform_get_irq_optional(pdev, 0)` -/
  get_irq : Int
  /-- pointer returned by `devm_ioremap_resource` for a non-`NULL` resource -/
  ioremap : Nat
  /-- return value of `devm_uio_register_device` -/
  uio_register : Int

/-- Memory returned by `devm_kzalloc(sizeof(struct uio_info))`: all zero. -/
def uio_info.zeroed : uio_info :=
  { name := none, version := none,
    mem := fun _ => { name := none, addr := 0, offs := 0, size := 0, memtype := 0 },
    irq := 0, irq_flags := 0, priv := none, handler := none, irqcontrol := none,
    open_cb := none, release := none }

/-- Record a managed resource. -/
def Machine.hold (m : Machine) (r : devres_t) : Machine :=
  { m with devres := m.devres ++ [r] }

/-- Outcome of `kronus_uio_probe`: the value returned (`none` when the body
dereferences `NULL`), the descriptor `info` as the call leaves it, and the
machine. -/
structure ProbeResult where
  ret : Option Int
  info : Option uio_info
  m : Machine

/-- Lines 66-89: the descriptor `info` the checks of line 91 see. With a
device-tree node a fresh zeroed descriptor replaces the platform data; the
error is the early `return -ENOMEM`. -/
def probe_info (pdev : platform_device) (k : Kernel) (m : Machine) :
    Except Int (Option uio_info) × Machine :=
  match pdev.of_node with
  | none => (Except.ok pdev.platform_data, m)
  | some node =>
    let m := m.emit Event.devm_kzalloc
    if k.kzalloc_info = false then
      (Except.error (-ENOMEM), m.emit (Event.dev_err "failed to kmalloc"))
    else
      let m := m.hold devres_t.info_mem
      let info := uio_info.zeroed
      let m := m.emit Event.of_property_read_string
      let src : String × Event :=
        match node.uio_name with
        | some name => (name, Event.devm_kstrdup)
        | none => (node.name, Event.devm_kasprintf)
      let m := m.emit src.2
      let m := if k.name_alloc then m.hold devres_t.name_mem else m
      let info := { info with name := if k.name_alloc then some src.1 else none }
      let info := { info with version := some "devicetree" }
      (Except.ok (some info), m)

/-- Lines 127-133: the fields written through `mem = &info->mem[0]`. -/
def probe_mem0 (k : Kernel) (res : resource) : uio_mem :=
  let W := k.BITS_PER_LONG
  let addr := res.start &&& PAGE_MASK W k.PAGE_SIZE
  let offs := res.start &&& bnot W (PAGE_MASK W k.PAGE_SIZE)
  let size :=
    usub W (uadd W (uadd W offs (resource_size W res)) k.PAGE_SIZE) 1
      &&& PAGE_MASK W k.PAGE_SIZE
  { memtype := UIO_MEM_PHYS, addr := addr, offs := offs, size := size,
    name := res.name }

/-- Lines 125-159: memory descriptor, mapping, callbacks, registration. -/
def probe_mem (pdev : platform_device) (k : Kernel) (info : uio_info)
    (priv : kronus_uio_platdata) (m : Machine) : ProbeResult :=
  let W := k.BITS_PER_LONG
  let m := m.emit Event.platform_get_resource
  match pdev.mem0 with
  | none => { ret := none, info := some info, m := m }
  | some res =>
    let info := { info with mem := Function.update info.mem 0 (probe_mem0 k res) }
    let info :=
      { info with mem := Function.update info.mem 1 { info.mem 1 with size := 0 } }
    let m := m.emit Event.devm_ioremap_resource
    let priv := { priv with base := k.ioremap }
    if IS_ERR W priv.base then
      { ret := some (int_of_long (PTR_ERR W priv.base)), info := some info,
        m := m.emit (Event.dev_err "failed to map memory") }
    else
      let m := m.hold (devres_t.iomap priv.base)
      let info :=
        { info with
          handler := some handler_t.kronus_uio_handler
          irqcontrol := some irqcontrol_t.kronus_uio_irqcontrol
          open_cb := none
          release := none
          priv := some priv }
      let m := m.emit Event.devm_uio_register_device
      let ret := k.uio_register
      if ret ≠ 0 then
        { ret := some ret, info := some info,
          m := m.emit (Event.dev_err "failed to register device") }
      else
        let m := m.hold devres_t.uio_device
        { ret := some 0, info := some info,
          m := m.emit (Event.dev_notice "registered device") }

/-- Lines 112-123: the interrupt identifier. -/
def probe_irq (pdev : platform_device) (k : Kernel) (info : uio_info)
    (priv : kronus_uio_platdata) (m : Machine) : ProbeResult :=
  if info.irq = 0 then
    let m := m.emit Event.platform_get_irq_optional
    let ret := k.get_irq
    let info := { info with irq := ret }
    if ret = - ENXIO then
      probe_mem pdev k { info with irq := UIO_IRQ_NONE } priv m
    else if ret = -EPROBE_DEFER then
      { ret := some ret, info := some info, m := m }
    else if ret < 0 then
      { ret := some ret, info := some info,
        m := m.emit (Event.dev_err "failed to get IRQ") }
    else
      probe_mem pdev k info priv m
  else
    probe_mem pdev k info priv m

/-- Lines 91-110: the configuration checks and the private data. Lines
108-110 fill the back pointers and initialise the lock of the fresh private
data; they have no effect outside it. -/
def probe_checked (pdev : platform_device) (k : Kernel) (info : Option uio_info)
    (m : Machine) : ProbeResult :=
  let ret : Int := -EINVAL
  match info with
  | none =>
    { ret := some ret, info := none,
      m := m.emit (Event.dev_err "missing platform data") }
  | some info =>
    if info.name.isNone || info.version.isNone then
      { ret := some ret, info := some info,
        m := m.emit (Event.dev_err "missing platform data") }
    else if info.handler.isSome || info.irqcontrol.isSome ||
        info.irq_flags &&& IRQF_SHARED ≠ 0 then
      { ret := some ret, info := some info,
        m := m.emit (Event.dev_err "interrupt configuration error") }
    else
      let m := m.emit Event.devm_kzalloc
      if k.kzalloc_priv = false then
        { ret := some (-ENOMEM), info := some info,
          m := m.emit (Event.dev_err "unable to kmalloc") }
      else
        let m := m.hold devres_t.priv_mem
        let priv : kronus_uio_platdata := { base := 0 }
        probe_irq pdev k info priv m

/-- The attach routine `kronus_uio_probe` (lines 64-159). -/
def kronus_uio_probe (pdev : platform_device) (k : Kernel) (m : Machine) :
    ProbeResult :=
  match probe_info pdev k m with
  | (Except.error e, m) => { ret := some e, info := none, m := m }
  | (Except.ok info, m) => probe_checked pdev k info m

/-! ## Driver registration and detach -/

/-- The kernel's `struct platform_driver`, callbacks and driver fields. A
callback the initialiser does not name is `NULL`. -/
structure platform_driver where
  probe : Option (platform_device → Kernel → Machine → ProbeResult)
  remove : Option (platform_device → Machine → Machine)
  name : String
  pm : Option Nat
  of_match_table : List String

/-- The match table (lines 161-166). -/
def kronus_uio_match : List String := ["kronus-uio"]

/-- The driver record `kronus_uio` (lines 168-175): only `.probe` and the
`.driver` fields are set. -/
def kronus_uio : platform_driver :=
  { probe := some kronus_uio_probe
    remove := none
    name := DRIVER_NAME
    pm := none
    of_match_table := kronus_uio_match }

/-- Driver core: release every managed resource of the device, newest first. -/
def devres_release_all (m : Machine) : Machine :=
  { m with
    trace := m.trace ++ m.devres.reverse.map Event.devres_release
    devres := [] }

/-- Driver core: detach of a platform device from its driver. The driver's
`remove` callback runs if there is one, then the managed resources go. -/
def platform_remove (drv : platform_driver) (pdev : platform_device)
    (m : Machine) : Machine :=
  let m :=
    match drv.remove with
    | some remove => remove pdev m
    | none => m
  devres_release_all m

/-! ## Sample inputs -/

/-- A private-data record whose window is mapped at `0xF0000000`. -/
def sample_priv : kronus_uio_platdata := { base := 0xF0000000 }

/-- A descriptor as a successful attach leaves it. -/
def sample_info : uio_info :=
  { uio_info.zeroed with
    name := some "kronus", version := some "devicetree", irq := 42,
    priv := some sample_priv,
    handler := some handler_t.kronus_uio_handler,
    irqcontrol := some irqcontrol_t.kronus_uio_irqcontrol }

/-- A machine whose control register holds `0xFF0` (interrupts enabled) and
whose other registers hold `0xABCD`. -/
def sample_machine : Machine :=
  { iomem := fun a => if a = 0xF0000010 then 0xFF0 else 0xABCD
    trace := []
    devres := [] }

/-- A machine at power-on whose registers all read 0. -/
def masked_machine : Machine :=
  { iomem := fun _ => 0, trace := [], devres := [] }

/-- A platform device described by a device-tree node without the
`linux,uio-name` property, with one 64 KiB register window. -/
def sample_pdev : platform_device :=
  { platform_data := none
    of_node := some { name := "kronus", uio_name := none }
    mem0 := some { start := 0x43C00000, end_ := 0x43C0FFFF, name := some "regs" } }

/-- A 64-bit kernel with 4 KiB pages on which every service succeeds: the
interrupt identifier is 42 and the window is mapped at `0xF0000000`. -/
def sample_kernel : Kernel :=
  { BITS_PER_LONG := 64, PAGE_SIZE := 4096, kzalloc_info := true,
    name_alloc := true, kzalloc_priv := true, get_irq := 42,
    ioremap := 0xF0000000, uio_register := 0 }

/-- Platform data of a board file that asks for a shared interrupt. -/
def shared_info : uio_info :=
  { uio_info.zeroed with
    name := some "kronus", version := some "1.0", irq_flags := IRQF_SHARED }

/-- A platform device without device-tree node whose platform data asks for
a shared interrupt. -/
def shared_pdev : platform_device :=
  { platform_data := some shared_info
    of_node := none
    mem0 := some { start := 0x43C00000, end_ := 0x43C0FFFF, name := some "regs" } }

/-- Complete platform data without interrupt and without conflict. -/
def plain_info : uio_info :=
  { uio_info.zeroed with name := some "kronus", version := some "1.0" }

/-- The sample kernel on a platform that has no interrupt for the device. -/
def enxio_kernel : Kernel := { sample_kernel with get_irq := - ENXIO }

/-- The sample kernel when mapping the window fails with `-EBUSY` (-16). -/
def busy_kernel : Kernel := { sample_kernel with ioremap := 2 ^ 64 - 16 }

/-- A platform device whose platform data carries no interrupt and has no
conflict. -/
def plain_pdev : platform_device :=
  { platform_data := some plain_info
    of_node := none
    mem0 := some { start := 0x43C00000, end_ := 0x43C0FFFF, name := some "regs" } }

/-- The sample device with a 512-byte window that starts 0xF00 bytes into a
page and ends in the next page. -/
def unaligned_res : resource :=
  { start := 0x43C00F00, end_ := 0x43C010FF, name := some "regs" }

def unaligned_pdev : platform_device := { sample_pdev with mem0 := some unaligned_res }

/-- The sample device-tree device without any memory resource (no `reg`
property in its node). -/
def nomem_pdev : platform_device := { sample_pdev with mem0 := none }

/-- Scenario "detach while enabled": attach, `set_irq_enabled(true)`, detach.
The result is the machine after detach. -/
def detach_while_enabled (pdev : platform_device) (k : Kernel) (m : Machine) :
    Option Machine :=
  let r := kronus_uio_probe pdev k m
  match r.ret, r.info with
  | some 0, some info =>
    (kronus_uio_irqcontrol info 1 r.m).map
      (fun x => platform_remove kronus_uio pdev x.2)
  | _, _ => none

/-! ## Trace predicates -/

/-- True for an access to the bus. -/
def Event.isBus (e : Event) : Bool := e.isWrite || e.isRead

/-- True for an event that touches hardware state or hands the device to the
exposure layer: a bus access, the interrupt request, the mapping, the
registration. -/
def Event.isHardware : Event → Bool
  | .iowrite32 _ _ => true
  | .ioread32 _ => true
  | .platform_get_irq_optional => true
  | .devm_ioremap_resource => true
  | .devm_uio_register_device => true
  | _ => false

/-- True for a bus access and for the request of the interrupt identifier. -/
def Event.isBusOrIrq : Event → Bool
  | .iowrite32 _ _ => true
  | .ioread32 _ => true
  | .platform_get_irq_optional => true
  | _ => false

/-- Machine `m1` is `m` after more events, none of them satisfying `bad`,
with the I/O memory unchanged. -/
def Extends (bad : Event → Bool) (m m1 : Machine) : Prop :=
  m1.iomem = m.iomem ∧
    ∃ added : List Event, m1.trace = m.trace ++ added ∧ ∀ e ∈ added, bad e = false

/-! ## Concurrent calls

Several calls of the two callbacks run at once, one per context. Each call
contributes the events its callback emits, in order; a scheduler picks which
context performs its next event. An acquire (`spin_lock`,
`spin_lock_irqsave`) can be performed only while the lock is free, and a
store is one event. -/

/-- One call of a callback. -/
inductive Call where
  | on_interrupt (irq : Int)
  | set_irq_enabled (irq_on : Int)
  deriving DecidableEq, Repr

/-- The events one call performs: the trace its callback leaves when it runs
from an empty trace. -/
def Call.events (info : uio_info) (c : Call) : List Event :=
  match c with
  | Call.on_interrupt irq =>
    match kronus_uio_handler irq info masked_machine with
    | some r => r.2.trace
    | none => []
  | Call.set_irq_enabled irq_on =>
    match kronus_uio_irqcontrol info irq_on masked_machine with
    | some r => r.2.trace
    | none => []

/-- The word a store event writes. -/
def Event.storedWord : Event → Option Nat
  | .iowrite32 w _ => some w
  | _ => none

/-- The word a call stores: the word of the store among its events. -/
def Call.word (info : uio_info) (c : Call) : Nat :=
  ((c.events info).findSome? Event.storedWord).getD 0

/-- True for the events that take the lock. -/
def Event.isAcquire : Event → Bool
  | .spin_lock => true
  | .spin_lock_irqsave => true
  | _ => false

/-- True for the events that give the lock back. -/
def Event.isRelease : Event → Bool
  | .spin_unlock => true
  | .spin_unlock_irqrestore => true
  | _ => false

/-- Effect of an event on the I/O memory. -/
def Event.store (e : Event) (mem : Nat → Nat) : Nat → Nat :=
  match e with
  | .iowrite32 w a => Function.update mem a w
  | _ => mem

/-- State of the concurrent system: the I/O memory, the call that holds the
lock, the events each call has still to perform, and the events performed so
far with the call that performed them, oldest first. -/
structure Conc where
  iomem : Nat → Nat
  lock : Option Nat
  pending : Nat → List Event
  log : List (Nat × Event)

/-- The system before any call has performed an event. -/
def Conc.start (info : uio_info) (init : Nat → Nat) (calls : List Call) : Conc :=
  { iomem := init
    lock := none
    pending := fun i =>
      match calls[i]? with
      | some c => c.events info
      | none => []
    log := [] }

/-- Call `i` performs its next event; `none` when it has none left or when the
event is an acquire and the lock is held. -/
def Conc.step (s : Conc) (i : Nat) : Option Conc :=
  match s.pending i with
  | [] => none
  | e :: rest =>
    if e.isAcquire = true then
      if s.lock = none then
        some { iomem := s.iomem, lock := some i,
               pending := Function.update s.pending i rest,
               log := s.log ++ [(i, e)] }
      else none
    else if e.isRelease = true then
      some { iomem := s.iomem, lock := none,
             pending := Function.update s.pending i rest,
             log := s.log ++ [(i, e)] }
    else
      some { iomem := e.store s.iomem, lock := s.lock,
             pending := Function.update s.pending i rest,
             log := s.log ++ [(i, e)] }

/-- The system after the calls named by a schedule performed one event each,
in that order. -/
def Conc.run (s : Conc) : List Nat → Option Conc
  | [] => some s
  | i :: sched =>
    match s.step i with
    | some s1 => s1.run sched
    | none => none

/-- Call `i` is inside its critical section: it has events left and the next
one is not its acquire. -/
def Conc.inCritical (s : Conc) (i : Nat) : Prop :=
  ∃ e rest, s.pending i = e :: rest ∧ e.isAcquire = false

/-- The last store of a log: the call that performed it and the word. -/
def lastStore (log : List (Nat × Event)) : Option (Nat × Nat) :=
  log.reverse.findSome? (fun p => p.2.storedWord.map (fun w => (p.1, w)))

/-- The call that performed the last release of a log. -/
def lastRelease (log : List (Nat × Event)) : Option Nat :=
  log.reverse.findSome? (fun p => if p.2.isRelease = true then some p.1 else none)

/-- What holds in every state the concurrent system reaches. Every call has
not begun, or is done, or holds the lock right after its acquire, or holds the
lock right after its store; the memory is the initial one with the control
register replaced by the last stored word; that word is the word of the call
that stored it; and while the lock is free the last store and the last release
are of the same call. -/
structure Inv (info : uio_info) (init : Nat → Nat) (calls : List Call) (ctrl : Nat)
    (s : Conc) : Prop where
  phase : ∀ i,
    (s.pending i = (Conc.start info init calls).pending i ∧ s.lock ≠ some i) ∨
    (s.pending i = [] ∧ s.lock ≠ some i) ∨
    (∃ c, calls[i]? = some c ∧ s.lock = some i ∧
      s.pending i = (c.events info).drop 1) ∨
    (∃ c, calls[i]? = some c ∧ s.lock = some i ∧
      s.pending i = (c.events info).drop 2 ∧ lastStore s.log = some (i, c.word info))
  mem : s.iomem =
    match lastStore s.log with
    | some p => Function.update init ctrl p.2
    | none => init
  stores : ∀ i w, lastStore s.log = some (i, w) →
    ∃ c, calls[i]? = some c ∧ w = c.word info
  commit : s.lock = none → (lastStore s.log).map Prod.fst = lastRelease s.log

/-- Two concurrent calls on the sample device: an interrupt and an enable. -/
def sample_calls : List Call := [Call.on_interrupt 42, Call.set_irq_enabled 1]

/-- A schedule in which the enable runs first and the interrupt second. -/
def sample_schedule : List Nat := [1, 1, 1, 0, 0, 0]

/-- The state the sample schedule leads to. -/
def sample_final : Conc :=
  ((Conc.start sample_info sample_machine.iomem sample_calls).run sample_schedule).getD
    (Conc.start sample_info sample_machine.iomem sample_calls)

/-! ## The interrupt callbacks -/

/-- C1: whatever the register window holds and whatever `irq` is, the handler
of a device whose private data is set returns `IRQ_HANDLED` and leaves the
control register (offset 0x10 of the mapped window) at `IRQ_MASKED` = 0x000.
Its only actions are lock, one store of 0x000 to the control register, unlock;
no other register changes. -/
theorem kronus_uio_handler_masks (irq : Int) (info : uio_info)
    (priv : kronus_uio_platdata) (m : Machine) (hpriv : info.priv = some priv) :
    ∃ m1 : Machine,
      kronus_uio_handler irq info m = some (irqreturn_t.IRQ_HANDLED, m1) ∧
      m1.iomem (priv.base + KRONUS_CTRL_REG) = KRONUS_CTRL_IRQ_MASK ∧
      KRONUS_CTRL_IRQ_MASK = 0x000 ∧ KRONUS_CTRL_REG = 0x10 ∧
      (∀ a, a ≠ priv.base + KRONUS_CTRL_REG → m1.iomem a = m.iomem a) ∧
      m1.trace = m.trace ++
        [Event.spin_lock,
         Event.iowrite32 KRONUS_CTRL_IRQ_MASK (priv.base + KRONUS_CTRL_REG),
         Event.spin_unlock] := by
  refine ⟨spin_unlock (iowrite32 KRONUS_CTRL_IRQ_MASK (priv.base + KRONUS_CTRL_REG)
    (spin_lock m)), ?_, ?_, rfl, rfl, ?_, ?_⟩
  · simp [kronus_uio_handler, hpriv]
  · simp [spin_unlock, spin_lock, Machine.emit, iowrite32, KRONUS_CTRL_IRQ_MASK]
  · intro a ha
    simp [spin_unlock, spin_lock, Machine.emit, iowrite32, Function.update_noteq ha]
  · simp [spin_unlock, spin_lock, Machine.emit, iowrite32, KRONUS_CTRL_IRQ_MASK]

theorem kronus_uio_handler_masks_witness :
    sample_info.priv = some sample_priv ∧
    ∃ m1 : Machine,
      kronus_uio_handler 42 sample_info sample_machine
        = some (irqreturn_t.IRQ_HANDLED, m1) ∧
      m1.iomem (sample_priv.base + KRONUS_CTRL_REG) = KRONUS_CTRL_IRQ_MASK ∧
      KRONUS_CTRL_IRQ_MASK = 0x000 ∧ KRONUS_CTRL_REG = 0x10 ∧
      (∀ a, a ≠ sample_priv.base + KRONUS_CTRL_REG →
        m1.iomem a = sample_machine.iomem a) ∧
      m1.trace = sample_machine.trace ++
        [Event.spin_lock,
         Event.iowrite32 KRONUS_CTRL_IRQ_MASK (sample_priv.base + KRONUS_CTRL_REG),
         Event.spin_unlock] :=
  ⟨rfl, kronus_uio_handler_masks 42 sample_info sample_priv sample_machine rfl⟩

/-- C2: whatever the register window holds and whatever the `s32` argument
`irq_on` is, `kronus_uio_irqcontrol` on a device whose private data is set
returns 0 and performs exactly: lock, one 32-bit store to the control register
(offset 0x10), unlock. The word stored is `IRQ_ENABLED` = 0xFF0 when `irq_on`
is non-zero (negative values included) and `IRQ_MASKED` = 0x000 when it is 0;
it replaces the register and does not depend on the previous content, which
is never read. -/
theorem kronus_uio_irqcontrol_store (info : uio_info) (priv : kronus_uio_platdata)
    (irq_on : Int) (m : Machine) (hpriv : info.priv = some priv) :
    ∃ m1 : Machine,
      kronus_uio_irqcontrol info irq_on m = some (0, m1) ∧
      m1.trace = m.trace ++
        [Event.spin_lock_irqsave,
         Event.iowrite32 (if irq_on ≠ 0 then KRONUS_CTRL_IRQ_EN else KRONUS_CTRL_IRQ_MASK)
           (priv.base + KRONUS_CTRL_REG),
         Event.spin_unlock_irqrestore] ∧
      m1.iomem = Function.update m.iomem (priv.base + KRONUS_CTRL_REG)
        (if irq_on ≠ 0 then KRONUS_CTRL_IRQ_EN else KRONUS_CTRL_IRQ_MASK) ∧
      KRONUS_CTRL_IRQ_EN = 0xFF0 ∧ KRONUS_CTRL_IRQ_MASK = 0x000 ∧
      KRONUS_CTRL_REG = 0x10 := by
  by_cases h : irq_on = 0
  · refine ⟨spin_unlock_irqrestore (iowrite32 KRONUS_CTRL_IRQ_MASK
      (priv.base + KRONUS_CTRL_REG) (spin_lock_irqsave m)), ?_, ?_, ?_, rfl, rfl, rfl⟩
    · simp [kronus_uio_irqcontrol, hpriv, h]
    · simp [h, spin_unlock_irqrestore, spin_lock_irqsave, Machine.emit, iowrite32,
        KRONUS_CTRL_IRQ_MASK]
    · simp [h, spin_unlock_irqrestore, spin_lock_irqsave, Machine.emit, iowrite32,
        KRONUS_CTRL_IRQ_MASK]
  · refine ⟨spin_unlock_irqrestore (iowrite32 KRONUS_CTRL_IRQ_EN
      (priv.base + KRONUS_CTRL_REG) (spin_lock_irqsave m)), ?_, ?_, ?_, rfl, rfl, rfl⟩
    · simp [kronus_uio_irqcontrol, hpriv, h]
    · simp [h, spin_unlock_irqrestore, spin_lock_irqsave, Machine.emit, iowrite32,
        KRONUS_CTRL_IRQ_EN]
    · simp [h, spin_unlock_irqrestore, spin_lock_irqsave, Machine.emit, iowrite32,
        KRONUS_CTRL_IRQ_EN]

theorem kronus_uio_irqcontrol_store_witness :
    sample_info.priv = some sample_priv ∧
    ∃ m1 : Machine,
      kronus_uio_irqcontrol sample_info (-1) sample_machine = some (0, m1) ∧
      m1.trace = sample_machine.trace ++
        [Event.spin_lock_irqsave,
         Event.iowrite32
           (if (-1 : Int) ≠ 0 then KRONUS_CTRL_IRQ_EN else KRONUS_CTRL_IRQ_MASK)
           (sample_priv.base + KRONUS_CTRL_REG),
         Event.spin_unlock_irqrestore] ∧
      m1.iomem = Function.update sample_machine.iomem (sample_priv.base + KRONUS_CTRL_REG)
        (if (-1 : Int) ≠ 0 then KRONUS_CTRL_IRQ_EN else KRONUS_CTRL_IRQ_MASK) ∧
      KRONUS_CTRL_IRQ_EN = 0xFF0 ∧ KRONUS_CTRL_IRQ_MASK = 0x000 ∧
      KRONUS_CTRL_REG = 0x10 :=
  ⟨rfl, kronus_uio_irqcontrol_store sample_info sample_priv (-1) sample_machine rfl⟩

/-- The machine a run of the handler produces. -/
theorem kronus_uio_handler_run (irq : Int) (info : uio_info)
    (priv : kronus_uio_platdata) (m : Machine) (hpriv : info.priv = some priv) :
    kronus_uio_handler irq info m = some (irqreturn_t.IRQ_HANDLED,
      spin_unlock (iowrite32 KRONUS_CTRL_IRQ_MASK (priv.base + KRONUS_CTRL_REG)
        (spin_lock m))) := by
  simp [kronus_uio_handler, hpriv]

/-- The machine a run of the enable/disable entry point produces. -/
theorem kronus_uio_irqcontrol_run (info : uio_info) (priv : kronus_uio_platdata)
    (irq_on : Int) (m : Machine) (hpriv : info.priv = some priv) :
    kronus_uio_irqcontrol info irq_on m = some (0,
      spin_unlock_irqrestore
        (iowrite32 (if irq_on ≠ 0 then KRONUS_CTRL_IRQ_EN else KRONUS_CTRL_IRQ_MASK)
          (priv.base + KRONUS_CTRL_REG) (spin_lock_irqsave m))) := by
  by_cases h : irq_on = 0 <;> simp [kronus_uio_irqcontrol, hpriv, h]

theorem locked_store_iomem (val addr : Nat) (m : Machine) :
    (spin_unlock (iowrite32 val addr (spin_lock m))).iomem
      = Function.update m.iomem addr (val % 2 ^ 32) := rfl

theorem irqsave_store_iomem (val addr : Nat) (m : Machine) :
    (spin_unlock_irqrestore (iowrite32 val addr (spin_lock_irqsave m))).iomem
      = Function.update m.iomem addr (val % 2 ^ 32) := rfl

/-- C9: from every register state, on a device whose private data is set:
(1) two calls `set_irq_enabled(false)` in a row, and (2) two calls of the
handler in a row, each leave the I/O memory after the first and after the
second call equal to the initial one with the control register replaced by
`IRQ_MASKED` = 0x000; (3) `set_irq_enabled(true)` (any non-zero argument)
followed by `set_irq_enabled(false)` passes through `IRQ_ENABLED` and ends in
that same masked memory, which is the initial memory itself when the control
register held 0x000 before the enable. -/
theorem mask_idempotent_and_roundtrip (info : uio_info) (priv : kronus_uio_platdata)
    (m : Machine) (irq1 irq2 en : Int) (hpriv : info.priv = some priv)
    (hen : en ≠ 0) :
    (∃ m1 m2 : Machine,
      kronus_uio_irqcontrol info 0 m = some (0, m1) ∧
      kronus_uio_irqcontrol info 0 m1 = some (0, m2) ∧
      m1.iomem = Function.update m.iomem (priv.base + KRONUS_CTRL_REG) KRONUS_CTRL_IRQ_MASK ∧
      m2.iomem = Function.update m.iomem (priv.base + KRONUS_CTRL_REG) KRONUS_CTRL_IRQ_MASK) ∧
    (∃ m1 m2 : Machine,
      kronus_uio_handler irq1 info m = some (irqreturn_t.IRQ_HANDLED, m1) ∧
      kronus_uio_handler irq2 info m1 = some (irqreturn_t.IRQ_HANDLED, m2) ∧
      m1.iomem = Function.update m.iomem (priv.base + KRONUS_CTRL_REG) KRONUS_CTRL_IRQ_MASK ∧
      m2.iomem = Function.update m.iomem (priv.base + KRONUS_CTRL_REG) KRONUS_CTRL_IRQ_MASK) ∧
    (∃ m1 m2 : Machine,
      kronus_uio_irqcontrol info en m = some (0, m1) ∧
      kronus_uio_irqcontrol info 0 m1 = some (0, m2) ∧
      m1.iomem (priv.base + KRONUS_CTRL_REG) = KRONUS_CTRL_IRQ_EN ∧
      m2.iomem = Function.update m.iomem (priv.base + KRONUS_CTRL_REG) KRONUS_CTRL_IRQ_MASK ∧
      (m.iomem (priv.base + KRONUS_CTRL_REG) = KRONUS_CTRL_IRQ_MASK → m2.iomem = m.iomem)) ∧
    Function.update m.iomem (priv.base + KRONUS_CTRL_REG) KRONUS_CTRL_IRQ_MASK
      (priv.base + KRONUS_CTRL_REG) = 0x000 := by
  refine ⟨⟨_, _, kronus_uio_irqcontrol_run info priv 0 m hpriv,
      kronus_uio_irqcontrol_run info priv 0 _ hpriv, ?_, ?_⟩,
    ⟨_, _, kronus_uio_handler_run irq1 info priv m hpriv,
      kronus_uio_handler_run irq2 info priv _ hpriv, ?_, ?_⟩,
    ⟨_, _, kronus_uio_irqcontrol_run info priv en m hpriv,
      kronus_uio_irqcontrol_run info priv 0 _ hpriv, ?_, ?_, ?_⟩, ?_⟩
  · simp [irqsave_store_iomem, KRONUS_CTRL_IRQ_MASK]
  · simp [irqsave_store_iomem, KRONUS_CTRL_IRQ_MASK]
  · simp [locked_store_iomem, KRONUS_CTRL_IRQ_MASK]
  · simp [locked_store_iomem, KRONUS_CTRL_IRQ_MASK]
  · simp [irqsave_store_iomem, hen, KRONUS_CTRL_IRQ_EN]
  · simp [irqsave_store_iomem, KRONUS_CTRL_IRQ_MASK]
  · intro h0
    simp only [irqsave_store_iomem, Function.update_idem]
    have h1 : KRONUS_CTRL_IRQ_MASK % 2 ^ 32 = m.iomem (priv.base + KRONUS_CTRL_REG) := by
      rw [h0]; rfl
    have h2 : (if (0 : Int) ≠ 0 then KRONUS_CTRL_IRQ_EN else KRONUS_CTRL_IRQ_MASK)
        = KRONUS_CTRL_IRQ_MASK := by simp
    rw [h2, h1]
    exact Function.update_eq_self _ _
  · simp [KRONUS_CTRL_IRQ_MASK]

theorem mask_idempotent_and_roundtrip_witness :
    sample_info.priv = some sample_priv ∧ (1 : Int) ≠ 0 ∧
    ∃ m1 m2 : Machine,
      kronus_uio_irqcontrol sample_info 1 masked_machine = some (0, m1) ∧
      kronus_uio_irqcontrol sample_info 0 m1 = some (0, m2) ∧
      m1.iomem (sample_priv.base + KRONUS_CTRL_REG) = KRONUS_CTRL_IRQ_EN ∧
      m2.iomem = Function.update masked_machine.iomem
        (sample_priv.base + KRONUS_CTRL_REG) KRONUS_CTRL_IRQ_MASK ∧
      (masked_machine.iomem (sample_priv.base + KRONUS_CTRL_REG) = KRONUS_CTRL_IRQ_MASK →
        m2.iomem = masked_machine.iomem) :=
  ⟨rfl, by decide,
    (mask_idempotent_and_roundtrip sample_info sample_priv masked_machine 42 42 1 rfl
      (by decide)).2.2.1⟩

/-! ## Attach: what the routine never does -/

theorem Extends.refl (bad : Event → Bool) (m : Machine) : Extends bad m m :=
  ⟨rfl, [], by simp, by simp⟩

theorem Extends.emit {bad : Event → Bool} {m m1 : Machine} (h : Extends bad m m1)
    (e : Event) (he : bad e = false) : Extends bad m (m1.emit e) := by
  obtain ⟨hio, added, htr, hall⟩ := h
  refine ⟨hio, added ++ [e], ?_, ?_⟩
  · simp [Machine.emit, htr]
  · intro x hx
    rcases List.mem_append.1 hx with hx | hx
    · exact hall x hx
    · rw [List.mem_singleton.1 hx]; exact he

theorem Extends.hold {bad : Event → Bool} {m m1 : Machine} (h : Extends bad m m1)
    (r : devres_t) : Extends bad m (m1.hold r) := h

theorem Extends.trans {bad : Event → Bool} {m m1 m2 : Machine}
    (h1 : Extends bad m m1) (h2 : Extends bad m1 m2) : Extends bad m m2 := by
  obtain ⟨hio1, a1, htr1, hall1⟩ := h1
  obtain ⟨hio2, a2, htr2, hall2⟩ := h2
  refine ⟨hio2.trans hio1, a1 ++ a2, ?_, ?_⟩
  · rw [htr2, htr1, List.append_assoc]
  · intro x hx
    rcases List.mem_append.1 hx with hx | hx
    · exact hall1 x hx
    · exact hall2 x hx

theorem Extends.weaken {bad bad1 : Event → Bool} {m m1 : Machine}
    (h : Extends bad m m1) (hb : ∀ e, bad e = false → bad1 e = false) :
    Extends bad1 m m1 := by
  obtain ⟨hio, added, htr, hall⟩ := h
  exact ⟨hio, added, htr, fun e he => hb e (hall e he)⟩

/-- Lines 66-89 touch no hardware. -/
theorem probe_info_extends (pdev : platform_device) (k : Kernel) (m : Machine) :
    Extends Event.isHardware m (probe_info pdev k m).2 := by
  unfold probe_info
  split
  · exact Extends.refl _ _
  · split
    · exact ((Extends.refl _ m).emit _ rfl).emit _ rfl
    · dsimp only
      split
      · refine Extends.hold (Extends.emit ?_ _ ?_) _
        · exact (((Extends.refl _ m).emit _ rfl).hold _).emit _ rfl
        · split <;> rfl
      · refine Extends.emit ?_ _ ?_
        · exact (((Extends.refl _ m).emit _ rfl).hold _).emit _ rfl
        · split <;> rfl

/-- Lines 125-159 access no register and request no interrupt. -/
theorem probe_mem_extends_irq (pdev : platform_device) (k : Kernel) (info : uio_info)
    (priv : kronus_uio_platdata) (m : Machine) :
    Extends Event.isBusOrIrq m (probe_mem pdev k info priv m).m := by
  unfold probe_mem
  dsimp only
  split
  · exact (Extends.refl _ m).emit _ rfl
  · split
    · exact (((Extends.refl _ m).emit _ rfl).emit _ rfl).emit _ rfl
    · split
      · exact (((((Extends.refl _ m).emit _ rfl).emit _ rfl).hold _).emit _ rfl).emit _ rfl
      · exact ((((((Extends.refl _ m).emit _ rfl).emit _ rfl).hold _).emit _ rfl).hold _).emit
          _ rfl

theorem isBus_of_isBusOrIrq (e : Event) (h : e.isBusOrIrq = false) : e.isBus = false := by
  cases e <;> simp_all [Event.isBusOrIrq, Event.isBus, Event.isWrite, Event.isRead]

/-- Lines 125-159 access no register. -/
theorem probe_mem_extends (pdev : platform_device) (k : Kernel) (info : uio_info)
    (priv : kronus_uio_platdata) (m : Machine) :
    Extends Event.isBus m (probe_mem pdev k info priv m).m :=
  (probe_mem_extends_irq pdev k info priv m).weaken isBus_of_isBusOrIrq

/-- Lines 112-159 access no register. -/
theorem probe_irq_extends (pdev : platform_device) (k : Kernel) (info : uio_info)
    (priv : kronus_uio_platdata) (m : Machine) :
    Extends Event.isBus m (probe_irq pdev k info priv m).m := by
  unfold probe_irq
  dsimp only
  split
  · split
    · exact ((Extends.refl _ m).emit _ rfl).trans (probe_mem_extends _ _ _ _ _)
    · split
      · exact (Extends.refl _ m).emit _ rfl
      · split
        · exact ((Extends.refl _ m).emit _ rfl).emit _ rfl
        · exact ((Extends.refl _ m).emit _ rfl).trans (probe_mem_extends _ _ _ _ _)
  · exact probe_mem_extends _ _ _ _ _

/-- Lines 91-159 access no register. -/
theorem probe_checked_extends (pdev : platform_device) (k : Kernel)
    (info : Option uio_info) (m : Machine) :
    Extends Event.isBus m (probe_checked pdev k info m).m := by
  unfold probe_checked
  dsimp only
  split
  · exact (Extends.refl _ m).emit _ rfl
  · split
    · exact (Extends.refl _ m).emit _ rfl
    · split
      · exact (Extends.refl _ m).emit _ rfl
      · split
        · exact ((Extends.refl _ m).emit _ rfl).emit _ rfl
        · exact (((Extends.refl _ m).emit _ rfl).hold _).trans (probe_irq_extends _ _ _ _ _)

theorem isBus_of_isHardware (e : Event) (h : e.isHardware = false) : e.isBus = false := by
  cases e <;> simp_all [Event.isHardware, Event.isBus, Event.isWrite, Event.isRead]

/-- The whole attach routine accesses no register: the I/O memory is the one
it started with and no bus access is added to the trace. -/
theorem kronus_uio_probe_extends (pdev : platform_device) (k : Kernel) (m : Machine) :
    Extends Event.isBus m (kronus_uio_probe pdev k m).m := by
  have h := probe_info_extends pdev k m
  unfold kronus_uio_probe
  split
  · next e m1 heq =>
    rw [heq] at h
    exact h.weaken isBus_of_isHardware
  · next info m1 heq =>
    rw [heq] at h
    exact (h.weaken isBus_of_isHardware).trans (probe_checked_extends _ _ _ _)

/-! ## Attach: the path of a successful run -/

/-- Without memory resource number 0, lines 125-159 dereference `NULL` at
`res->start` (line 129). -/
theorem probe_mem_null_resource (pdev : platform_device) (k : Kernel) (info : uio_info)
    (priv : kronus_uio_platdata) (m : Machine) (hres : pdev.mem0 = none) :
    (probe_mem pdev k info priv m).ret = none ∧
    (probe_mem pdev k info priv m).m.trace = m.trace ++ [Event.platform_get_resource] := by
  simp [probe_mem, hres, Machine.emit]

/-- A run of lines 125-159 that returns at all found the memory resource and
left its descriptor in slot 0 and size 0 in slot 1. -/
theorem probe_mem_descriptor (pdev : platform_device) (k : Kernel) (info : uio_info)
    (priv : kronus_uio_platdata) (m : Machine)
    (h : (probe_mem pdev k info priv m).ret ≠ none) :
    ∃ (res : resource) (info1 : uio_info),
      pdev.mem0 = some res ∧ (probe_mem pdev k info priv m).info = some info1 ∧
      info1.mem 0 = probe_mem0 k res ∧ (info1.mem 1).size = 0 := by
  cases hres : pdev.mem0 with
  | none => exact absurd (probe_mem_null_resource pdev k info priv m hres).1 h
  | some res =>
    refine ⟨res, ?_⟩
    unfold probe_mem
    simp only [hres]
    split
    · exact ⟨_, trivial, rfl, by simp, by simp⟩
    · split
      · exact ⟨_, trivial, rfl, by simp, by simp⟩
      · exact ⟨_, trivial, rfl, by simp, by simp⟩

/-- A run of lines 112-159 that returns 0 went through lines 125-159. -/
theorem probe_irq_ret_zero (pdev : platform_device) (k : Kernel) (info : uio_info)
    (priv : kronus_uio_platdata) (m : Machine)
    (h : (probe_irq pdev k info priv m).ret = some 0) :
    ∃ (info1 : uio_info) (m1 : Machine),
      probe_irq pdev k info priv m = probe_mem pdev k info1 priv m1 := by
  unfold probe_irq at h ⊢
  dsimp only at h ⊢
  split
  · split
    · exact ⟨_, _, rfl⟩
    · next hx =>
      split
      · next hd =>
        rw [if_pos ‹info.irq = 0›, if_neg hx, if_pos hd] at h
        simp only [Option.some.injEq] at h
        rw [h] at hd
        exact absurd hd (by decide)
      · next hd =>
        split
        · next hneg =>
          rw [if_pos ‹info.irq = 0›, if_neg hx, if_neg hd, if_pos hneg] at h
          simp only [Option.some.injEq] at h
          omega
        · exact ⟨_, _, rfl⟩
  · exact ⟨_, _, rfl⟩

/-- A run of lines 91-159 that returns 0 went through lines 125-159. -/
theorem probe_checked_ret_zero (pdev : platform_device) (k : Kernel)
    (d : Option uio_info) (m : Machine)
    (h : (probe_checked pdev k d m).ret = some 0) :
    ∃ (info1 : uio_info) (priv : kronus_uio_platdata) (m1 : Machine),
      probe_checked pdev k d m = probe_mem pdev k info1 priv m1 := by
  unfold probe_checked at h ⊢
  dsimp only at h ⊢
  split
  · simp [EINVAL] at h
  · next info =>
    simp only at h
    split
    · next h1 => rw [if_pos h1] at h; simp [EINVAL] at h
    · next h1 =>
      rw [if_neg h1] at h
      split
      · next h2 => rw [if_pos h2] at h; simp [EINVAL] at h
      · next h2 =>
        rw [if_neg h2] at h
        split
        · next h3 => rw [if_pos h3] at h; simp [ENOMEM] at h
        · next h3 =>
          rw [if_neg h3] at h
          obtain ⟨info1, m1, hE⟩ := probe_irq_ret_zero _ _ _ _ _ h
          exact ⟨info1, _, m1, hE⟩

/-- An attach that returns 0 went through lines 125-159. -/
theorem kronus_uio_probe_ret_zero (pdev : platform_device) (k : Kernel) (m : Machine)
    (h : (kronus_uio_probe pdev k m).ret = some 0) :
    ∃ (info1 : uio_info) (priv : kronus_uio_platdata) (m1 : Machine),
      kronus_uio_probe pdev k m = probe_mem pdev k info1 priv m1 := by
  unfold kronus_uio_probe at h ⊢
  split
  · next e m1 heq =>
    rw [heq] at h
    have hE : e = -ENOMEM := by
      unfold probe_info at heq
      split at heq
      · simp at heq
      · split at heq
        · simp only [Prod.mk.injEq, Except.error.injEq] at heq
          exact heq.1.symm
        · simp at heq
    simp [hE, ENOMEM] at h
  · next d m1 heq =>
    rw [heq] at h
    exact probe_checked_ret_zero pdev k d m1 h

/-! ## Attach: the register is not initialised -/

/-- C4 (counterexample): on the sample device, whose control register holds
0xFF0 before attach, `kronus_uio_probe` returns 0 and the control register of
the mapped window still holds 0xFF0, which is not `IRQ_MASKED`. -/
theorem attach_leaves_register_enabled :
    (kronus_uio_probe sample_pdev sample_kernel sample_machine).ret = some 0 ∧
    sample_machine.iomem (sample_kernel.ioremap + KRONUS_CTRL_REG) = 0xFF0 ∧
    (kronus_uio_probe sample_pdev sample_kernel sample_machine).m.iomem
      (sample_kernel.ioremap + KRONUS_CTRL_REG) = 0xFF0 ∧
    (0xFF0 : Nat) ≠ KRONUS_CTRL_IRQ_MASK := by
  decide

/-- C4 (amended): an attach that returns 0 found its memory resource and
performs no access to the register window. Every register, the control
register at offset 0x10 of the mapped window included, holds when attach
returns the value it held before, and the trace gains no bus access; so the
control register reads `IRQ_MASKED` after attach exactly when it did before. -/
theorem attach_keeps_control_register (pdev : platform_device) (k : Kernel)
    (m : Machine) (hret : (kronus_uio_probe pdev k m).ret = some 0) :
    (∃ res : resource, pdev.mem0 = some res) ∧
    (kronus_uio_probe pdev k m).m.iomem = m.iomem ∧
    ((kronus_uio_probe pdev k m).m.iomem (k.ioremap + KRONUS_CTRL_REG)
        = KRONUS_CTRL_IRQ_MASK ↔
      m.iomem (k.ioremap + KRONUS_CTRL_REG) = KRONUS_CTRL_IRQ_MASK) ∧
    ∃ added : List Event,
      (kronus_uio_probe pdev k m).m.trace = m.trace ++ added ∧
      ∀ e ∈ added, e.isWrite = false ∧ e.isRead = false := by
  obtain ⟨hio, added, htr, hall⟩ := kronus_uio_probe_extends pdev k m
  obtain ⟨info0, priv, m1, hE⟩ := kronus_uio_probe_ret_zero pdev k m hret
  have hsome : (probe_mem pdev k info0 priv m1).ret ≠ none := by
    rw [← hE, hret]; simp
  obtain ⟨res, _, hres, _⟩ := probe_mem_descriptor pdev k info0 priv m1 hsome
  refine ⟨⟨res, hres⟩, hio, by rw [hio], added, htr, fun e he => ?_⟩
  have h := hall e he
  simpa [Event.isBus] using h

theorem attach_keeps_control_register_witness :
    (kronus_uio_probe sample_pdev sample_kernel masked_machine).ret = some 0 ∧
    (∃ res : resource, sample_pdev.mem0 = some res) ∧
    (kronus_uio_probe sample_pdev sample_kernel masked_machine).m.iomem
      = masked_machine.iomem ∧
    ((kronus_uio_probe sample_pdev sample_kernel masked_machine).m.iomem
        (sample_kernel.ioremap + KRONUS_CTRL_REG) = KRONUS_CTRL_IRQ_MASK ↔
      masked_machine.iomem (sample_kernel.ioremap + KRONUS_CTRL_REG)
        = KRONUS_CTRL_IRQ_MASK) ∧
    ∃ added : List Event,
      (kronus_uio_probe sample_pdev sample_kernel masked_machine).m.trace
        = masked_machine.trace ++ added ∧
      ∀ e ∈ added, e.isWrite = false ∧ e.isRead = false :=
  ⟨by decide,
    attach_keeps_control_register sample_pdev sample_kernel masked_machine (by decide)⟩

/-! ## Detach -/

theorem devres_release_not_bus (rs : List devres_t) :
    ∀ e ∈ rs.map Event.devres_release, e.isBus = false := by
  intro e he
  obtain ⟨r, _, rfl⟩ := List.mem_map.1 he
  rfl

/-- C5 (counterexample): attach the sample device with all registers 0, enable
interrupts, detach. After detach the control register reads `IRQ_ENABLED`
(0xFF0), not `IRQ_MASKED`; the events from the enable on are the enable's
locked store and then the releases of the managed resources, the mapping among
them, with no store in between. -/
theorem detach_leaves_register_enabled :
    (detach_while_enabled sample_pdev sample_kernel masked_machine).map
        (fun m => m.iomem (sample_kernel.ioremap + KRONUS_CTRL_REG))
      = some KRONUS_CTRL_IRQ_EN ∧
    KRONUS_CTRL_IRQ_EN ≠ KRONUS_CTRL_IRQ_MASK ∧
    (detach_while_enabled sample_pdev sample_kernel masked_machine).map
        (fun m => m.trace.drop 9)
      = some [Event.spin_lock_irqsave,
          Event.iowrite32 0xFF0 0xF0000010,
          Event.spin_unlock_irqrestore,
          Event.devres_release devres_t.uio_device,
          Event.devres_release (devres_t.iomap 0xF0000000),
          Event.devres_release devres_t.priv_mem,
          Event.devres_release devres_t.name_mem,
          Event.devres_release devres_t.info_mem] := by
  decide

/-- C5 (amended): the driver record has no `remove` callback, so detach of a
device whose control register holds `IRQ_ENABLED` (0xFF0) consists of the
release of the managed resources only. No register is written: the control
register still reads `IRQ_ENABLED` when the mapped window is released and when
teardown completes. -/
theorem detach_keeps_control_register (pdev : platform_device) (m : Machine)
    (base : Nat) (hmap : devres_t.iomap base ∈ m.devres)
    (hen : m.iomem (base + KRONUS_CTRL_REG) = KRONUS_CTRL_IRQ_EN) :
    kronus_uio.remove.isNone = true ∧
    (platform_remove kronus_uio pdev m).iomem (base + KRONUS_CTRL_REG)
      = KRONUS_CTRL_IRQ_EN ∧
    (platform_remove kronus_uio pdev m).iomem = m.iomem ∧
    (platform_remove kronus_uio pdev m).devres = [] ∧
    (platform_remove kronus_uio pdev m).trace
      = m.trace ++ m.devres.reverse.map Event.devres_release ∧
    Event.devres_release (devres_t.iomap base)
      ∈ m.devres.reverse.map Event.devres_release ∧
    ∀ e ∈ m.devres.reverse.map Event.devres_release,
      e.isWrite = false ∧ e.isRead = false := by
  refine ⟨rfl, hen, rfl, rfl, rfl, ?_, fun e he => ?_⟩
  · exact List.mem_map.2 ⟨_, List.mem_reverse.2 hmap, rfl⟩
  · have h := devres_release_not_bus _ e he
    simpa [Event.isBus] using h

/-- The machine of the sample device, attached and enabled. -/
theorem detach_keeps_control_register_witness :
    devres_t.iomap 0xF0000000
      ∈ (kronus_uio_probe sample_pdev sample_kernel sample_machine).m.devres ∧
    (kronus_uio_probe sample_pdev sample_kernel sample_machine).m.iomem
      (0xF0000000 + KRONUS_CTRL_REG) = KRONUS_CTRL_IRQ_EN ∧
    (platform_remove kronus_uio sample_pdev
      (kronus_uio_probe sample_pdev sample_kernel sample_machine).m).iomem
        (0xF0000000 + KRONUS_CTRL_REG) = KRONUS_CTRL_IRQ_EN :=
  ⟨by decide, by decide,
    (detach_keeps_control_register sample_pdev
      (kronus_uio_probe sample_pdev sample_kernel sample_machine).m 0xF0000000
      (by decide) (by decide)).2.1⟩

/-! ## Attach: the stages -/

/-- The attach routine is its checks run on the descriptor of lines 66-89. -/
theorem kronus_uio_probe_of_info (pdev : platform_device) (k : Kernel) (m m0 : Machine)
    (d : Option uio_info) (hinfo : probe_info pdev k m = (Except.ok d, m0)) :
    kronus_uio_probe pdev k m = probe_checked pdev k d m0 := by
  simp [kronus_uio_probe, hinfo]

/-- A complete descriptor without conflict passes lines 91-110 when the private
data can be allocated. -/
theorem probe_checked_pass (pdev : platform_device) (k : Kernel) (info : uio_info)
    (m0 : Machine) (hname : info.name ≠ none) (hver : info.version ≠ none)
    (hh : info.handler = none) (hc : info.irqcontrol = none)
    (hs : info.irq_flags &&& IRQF_SHARED = 0) (hpriv : k.kzalloc_priv = true) :
    probe_checked pdev k (some info) m0
      = probe_irq pdev k info { base := 0 }
          ((m0.emit Event.devm_kzalloc).hold devres_t.priv_mem) := by
  have h1 : info.name.isNone = false := by
    cases hn : info.name with
    | none => exact absurd hn hname
    | some _ => rfl
  have h2 : info.version.isNone = false := by
    cases hn : info.version with
    | none => exact absurd hn hver
    | some _ => rfl
  simp [probe_checked, h1, h2, hh, hc, hs, hpriv]

/-- C6: when the descriptor that reaches the checks of line 91 is absent, or
lacks its name or its version, or already has a handler or an irqcontrol
callback, or has `IRQF_SHARED` in `irq_flags`, `kronus_uio_probe` returns
`-EINVAL` (-22). The descriptor is left as it was (no callback is installed),
the I/O memory is unchanged, and the events of the call contain no interrupt
request, no mapping, no bus access and no registration. -/
theorem probe_rejects_bad_configuration (pdev : platform_device) (k : Kernel)
    (m m0 : Machine) (d : Option uio_info)
    (hinfo : probe_info pdev k m = (Except.ok d, m0))
    (hbad : d = none ∨ ∃ info, d = some info ∧
      (info.name = none ∨ info.version = none ∨ info.handler ≠ none ∨
        info.irqcontrol ≠ none ∨ info.irq_flags &&& IRQF_SHARED ≠ 0)) :
    (kronus_uio_probe pdev k m).ret = some (-EINVAL) ∧ EINVAL = 22 ∧
    (kronus_uio_probe pdev k m).info = d ∧
    (kronus_uio_probe pdev k m).m.iomem = m.iomem ∧
    (kronus_uio_probe pdev k m).m.devres = m0.devres ∧
    ∃ added : List Event,
      (kronus_uio_probe pdev k m).m.trace = m.trace ++ added ∧
      (∀ e ∈ added, e.isHardware = false) ∧
      Event.platform_get_irq_optional ∉ added ∧
      Event.devm_ioremap_resource ∉ added ∧
      Event.devm_uio_register_device ∉ added := by
  have hext := probe_info_extends pdev k m
  rw [hinfo] at hext
  have key : ∃ msg, kronus_uio_probe pdev k m
      = { ret := some (-EINVAL), info := d, m := m0.emit (Event.dev_err msg) } := by
    rw [kronus_uio_probe_of_info pdev k m m0 d hinfo]
    rcases hbad with rfl | ⟨info, rfl, hcase⟩
    · exact ⟨_, rfl⟩
    · unfold probe_checked
      dsimp only
      by_cases h1 : (info.name.isNone || info.version.isNone) = true
      · rw [if_pos h1]; exact ⟨_, rfl⟩
      · rw [if_neg h1]
        by_cases h2 : (info.handler.isSome || info.irqcontrol.isSome ||
            decide (info.irq_flags &&& IRQF_SHARED ≠ 0)) = true
        · rw [if_pos h2]; exact ⟨_, rfl⟩
        · exfalso
          simp only [Bool.or_eq_true, Option.isNone_iff_eq_none, not_or,
            Option.isSome_iff_ne_none, decide_eq_true_eq] at h1 h2
          rcases hcase with h | h | h | h | h
          · exact h1.1 h
          · exact h1.2 h
          · exact h2.1.1 h
          · exact h2.1.2 h
          · exact h2.2 h
  obtain ⟨msg, hEq⟩ := key
  have hext2 : Extends Event.isHardware m (m0.emit (Event.dev_err msg)) :=
    hext.emit _ rfl
  obtain ⟨hio, added, htr, hall⟩ := hext2
  rw [hEq]
  refine ⟨rfl, rfl, rfl, hio, rfl, added, htr, hall, ?_, ?_, ?_⟩
  · intro hmem; exact absurd (hall _ hmem) (by decide)
  · intro hmem; exact absurd (hall _ hmem) (by decide)
  · intro hmem; exact absurd (hall _ hmem) (by decide)

theorem probe_rejects_bad_configuration_witness :
    (kronus_uio_probe shared_pdev sample_kernel sample_machine).ret = some (-EINVAL) ∧
    EINVAL = 22 ∧
    (kronus_uio_probe shared_pdev sample_kernel sample_machine).info = some shared_info ∧
    (kronus_uio_probe shared_pdev sample_kernel sample_machine).m.iomem
      = sample_machine.iomem ∧
    (kronus_uio_probe shared_pdev sample_kernel sample_machine).m.devres
      = sample_machine.devres ∧
    ∃ added : List Event,
      (kronus_uio_probe shared_pdev sample_kernel sample_machine).m.trace
        = sample_machine.trace ++ added ∧
      (∀ e ∈ added, e.isHardware = false) ∧
      Event.platform_get_irq_optional ∉ added ∧
      Event.devm_ioremap_resource ∉ added ∧
      Event.devm_uio_register_device ∉ added :=
  probe_rejects_bad_configuration shared_pdev sample_kernel sample_machine
    sample_machine (some shared_info) rfl
    (Or.inr ⟨shared_info, rfl, Or.inr (Or.inr (Or.inr (Or.inr (by decide))))⟩)

/-- Lines 125-159 keep the interrupt identifier and start with the lookup of
the memory resource. -/
theorem probe_mem_continues (pdev : platform_device) (k : Kernel) (info : uio_info)
    (priv : kronus_uio_platdata) (m : Machine) :
    ∃ (info1 : uio_info) (rest : List Event),
      (probe_mem pdev k info priv m).info = some info1 ∧ info1.irq = info.irq ∧
      (probe_mem pdev k info priv m).m.trace
        = m.trace ++ Event.platform_get_resource :: rest ∧
      Event.platform_get_irq_optional ∉ rest := by
  obtain ⟨_, added, htr, hall⟩ := probe_mem_extends_irq pdev k info priv m
  have hhead : ∃ rest, added = Event.platform_get_resource :: rest := by
    have hpre : ∃ rest, (probe_mem pdev k info priv m).m.trace
        = m.trace ++ Event.platform_get_resource :: rest := by
      unfold probe_mem
      dsimp only
      split
      · exact ⟨[], rfl⟩
      · split
        · exact ⟨_, by simp [Machine.emit]; rfl⟩
        · split
          · exact ⟨_, by simp [Machine.emit, Machine.hold]; rfl⟩
          · exact ⟨_, by simp [Machine.emit, Machine.hold]; rfl⟩
    obtain ⟨rest, hrest⟩ := hpre
    exact ⟨rest, List.append_cancel_left (htr.symm.trans hrest)⟩
  obtain ⟨rest, rfl⟩ := hhead
  have hirq : ∃ info1, (probe_mem pdev k info priv m).info = some info1 ∧
      info1.irq = info.irq := by
    unfold probe_mem
    dsimp only
    split
    · exact ⟨_, rfl, rfl⟩
    · split
      · exact ⟨_, rfl, rfl⟩
      · split
        · exact ⟨_, rfl, rfl⟩
        · exact ⟨_, rfl, rfl⟩
  obtain ⟨info1, h1, h2⟩ := hirq
  refine ⟨info1, rest, h1, h2, htr, fun hmem => ?_⟩
  exact absurd (hall _ (List.mem_cons_of_mem _ hmem)) (by decide)

/-- C7: let the descriptor pass the configuration checks and the private data
be allocated. If the descriptor's `irq` is 0, the identifier is requested and
the returned value `r` decides: `r = -ENXIO` stores `UIO_IRQ_NONE` and attach
goes on to the memory resource; `r = -EPROBE_DEFER` makes attach return
`-EPROBE_DEFER`; any other negative `r` makes attach return `r`; a non-negative
`r` is stored as the identifier and attach goes on. If `irq` is not 0, attach
goes on with that identifier and requests none. -/
theorem probe_irq_request_outcomes (pdev : platform_device) (k : Kernel)
    (m m0 : Machine) (info : uio_info)
    (hinfo : probe_info pdev k m = (Except.ok (some info), m0))
    (hname : info.name ≠ none) (hver : info.version ≠ none)
    (hh : info.handler = none) (hc : info.irqcontrol = none)
    (hs : info.irq_flags &&& IRQF_SHARED = 0) (hpriv : k.kzalloc_priv = true) :
    (info.irq = 0 →
      (k.get_irq = - ENXIO →
        kronus_uio_probe pdev k m
          = probe_mem pdev k { info with irq := UIO_IRQ_NONE } { base := 0 }
              (((m0.emit Event.devm_kzalloc).hold devres_t.priv_mem).emit
                Event.platform_get_irq_optional) ∧
        ∃ (info1 : uio_info) (rest : List Event),
          (kronus_uio_probe pdev k m).info = some info1 ∧
          info1.irq = UIO_IRQ_NONE ∧
          (kronus_uio_probe pdev k m).m.trace
            = m0.trace ++ [Event.devm_kzalloc, Event.platform_get_irq_optional,
                Event.platform_get_resource] ++ rest) ∧
      (k.get_irq = -EPROBE_DEFER →
        (kronus_uio_probe pdev k m).ret = some (-EPROBE_DEFER) ∧
        (kronus_uio_probe pdev k m).m.trace
          = m0.trace ++ [Event.devm_kzalloc, Event.platform_get_irq_optional]) ∧
      (k.get_irq < 0 → k.get_irq ≠ - ENXIO → k.get_irq ≠ -EPROBE_DEFER →
        (kronus_uio_probe pdev k m).ret = some k.get_irq ∧
        (kronus_uio_probe pdev k m).m.trace
          = m0.trace ++ [Event.devm_kzalloc, Event.platform_get_irq_optional,
              Event.dev_err "failed to get IRQ"]) ∧
      (0 ≤ k.get_irq →
        kronus_uio_probe pdev k m
          = probe_mem pdev k { info with irq := k.get_irq } { base := 0 }
              (((m0.emit Event.devm_kzalloc).hold devres_t.priv_mem).emit
                Event.platform_get_irq_optional) ∧
        ∃ (info1 : uio_info) (rest : List Event),
          (kronus_uio_probe pdev k m).info = some info1 ∧
          info1.irq = k.get_irq ∧
          (kronus_uio_probe pdev k m).m.trace
            = m0.trace ++ [Event.devm_kzalloc, Event.platform_get_irq_optional,
                Event.platform_get_resource] ++ rest)) ∧
    (info.irq ≠ 0 →
      kronus_uio_probe pdev k m
        = probe_mem pdev k info { base := 0 }
            ((m0.emit Event.devm_kzalloc).hold devres_t.priv_mem) ∧
      ∃ (info1 : uio_info) (rest : List Event),
        (kronus_uio_probe pdev k m).info = some info1 ∧
        info1.irq = info.irq ∧
        (kronus_uio_probe pdev k m).m.trace
          = m0.trace ++ [Event.devm_kzalloc, Event.platform_get_resource] ++ rest ∧
        Event.platform_get_irq_optional
          ∉ [Event.devm_kzalloc, Event.platform_get_resource] ++ rest) := by
  have hEq : kronus_uio_probe pdev k m
      = probe_irq pdev k info { base := 0 }
          ((m0.emit Event.devm_kzalloc).hold devres_t.priv_mem) := by
    rw [kronus_uio_probe_of_info pdev k m m0 _ hinfo]
    exact probe_checked_pass pdev k info m0 hname hver hh hc hs hpriv
  have hdefer : (-EPROBE_DEFER : Int) ≠ - ENXIO := by decide
  refine ⟨fun h0 => ⟨fun hr => ?_, fun hr => ?_, fun hneg h1 h2 => ?_, fun hpos => ?_⟩,
    fun hne => ?_⟩
  · have hE : kronus_uio_probe pdev k m
        = probe_mem pdev k { info with irq := UIO_IRQ_NONE } { base := 0 }
            (((m0.emit Event.devm_kzalloc).hold devres_t.priv_mem).emit
              Event.platform_get_irq_optional) := by
      rw [hEq]; simp [probe_irq, h0, hr]
    refine ⟨hE, ?_⟩
    obtain ⟨info1, rest, hi, hirq, htr, _⟩ := probe_mem_continues pdev k
      { info with irq := UIO_IRQ_NONE } { base := 0 }
      (((m0.emit Event.devm_kzalloc).hold devres_t.priv_mem).emit
        Event.platform_get_irq_optional)
    refine ⟨info1, rest, by rw [hE]; exact hi, hirq, ?_⟩
    rw [hE, htr]; simp [Machine.emit, Machine.hold]
  · rw [hEq]
    simp [probe_irq, h0, hr, hdefer, Machine.emit, Machine.hold]
  · rw [hEq]
    simp [probe_irq, h0, h1, h2, hneg, Machine.emit, Machine.hold]
  · have hx : k.get_irq ≠ - ENXIO := by
      intro h; rw [h] at hpos; revert hpos; decide
    have hy : k.get_irq ≠ -EPROBE_DEFER := by
      intro h; rw [h] at hpos; revert hpos; decide
    have hE : kronus_uio_probe pdev k m
        = probe_mem pdev k { info with irq := k.get_irq } { base := 0 }
            (((m0.emit Event.devm_kzalloc).hold devres_t.priv_mem).emit
              Event.platform_get_irq_optional) := by
      rw [hEq]; simp [probe_irq, h0, hx, hy, not_lt.2 hpos]
    refine ⟨hE, ?_⟩
    obtain ⟨info1, rest, hi, hirq, htr, _⟩ := probe_mem_continues pdev k
      { info with irq := k.get_irq } { base := 0 }
      (((m0.emit Event.devm_kzalloc).hold devres_t.priv_mem).emit
        Event.platform_get_irq_optional)
    refine ⟨info1, rest, by rw [hE]; exact hi, hirq, ?_⟩
    rw [hE, htr]; simp [Machine.emit, Machine.hold]
  · have hE : kronus_uio_probe pdev k m
        = probe_mem pdev k info { base := 0 }
            ((m0.emit Event.devm_kzalloc).hold devres_t.priv_mem) := by
      rw [hEq]; simp [probe_irq, hne]
    refine ⟨hE, ?_⟩
    obtain ⟨info1, rest, hi, hirq, htr, hno⟩ := probe_mem_continues pdev k
      info { base := 0 } ((m0.emit Event.devm_kzalloc).hold devres_t.priv_mem)
    refine ⟨info1, rest, by rw [hE]; exact hi, hirq, ?_, ?_⟩
    · rw [hE, htr]; simp [Machine.emit, Machine.hold]
    · simpa using hno

theorem probe_irq_request_outcomes_witness :
    kronus_uio_probe plain_pdev enxio_kernel sample_machine
      = probe_mem plain_pdev enxio_kernel { plain_info with irq := UIO_IRQ_NONE }
          { base := 0 }
          (((sample_machine.emit Event.devm_kzalloc).hold devres_t.priv_mem).emit
            Event.platform_get_irq_optional) :=
  (((probe_irq_request_outcomes plain_pdev enxio_kernel sample_machine sample_machine
    plain_info rfl (by decide) (by decide) rfl rfl (by decide) rfl).1 rfl).1 rfl).1

/-! ## Attach: the mapping -/

/-- An error pointer of a kernel of at least 32 bits converts to its negative
error code, between `-MAX_ERRNO` and -1. -/
theorem PTR_ERR_neg (W ptr : Nat) (hW : 32 ≤ W) (hptr : ptr < 2 ^ W)
    (herr : IS_ERR W ptr = true) :
    int_of_long (PTR_ERR W ptr) = (ptr : Int) - 2 ^ W ∧
    int_of_long (PTR_ERR W ptr) < 0 ∧ -(MAX_ERRNO : Int) ≤ int_of_long (PTR_ERR W ptr) := by
  have hbig : 2 ^ 32 ≤ 2 ^ W := Nat.pow_le_pow_right (by norm_num) hW
  have hhalf : 2 ^ W = 2 * 2 ^ (W - 1) := by
    have h : W = (W - 1) + 1 := by omega
    calc 2 ^ W = 2 ^ ((W - 1) + 1) := by rw [← h]
      _ = 2 * 2 ^ (W - 1) := by rw [pow_succ']
  simp only [IS_ERR, MAX_ERRNO, decide_eq_true_eq] at herr
  have hge : ¬ ptr < 2 ^ (W - 1) := by omega
  have hcast : ((2 ^ W : Nat) : Int) = (2 : Int) ^ W := by push_cast; rfl
  simp only [PTR_ERR, if_neg hge, int_of_long, MAX_ERRNO]
  rw [← hcast]
  omega

/-- When the resource exists and `devm_ioremap_resource` returns an error
pointer, lines 125-159 return its negative error code; the callbacks are not
installed and the device is not registered. -/
theorem probe_mem_map_failure (pdev : platform_device) (k : Kernel) (info : uio_info)
    (priv : kronus_uio_platdata) (m : Machine) (res : resource)
    (hW : 32 ≤ k.BITS_PER_LONG) (hptr : k.ioremap < 2 ^ k.BITS_PER_LONG)
    (hres : pdev.mem0 = some res) (herr : IS_ERR k.BITS_PER_LONG k.ioremap = true) :
    ∃ (e : Int) (info1 : uio_info),
      (probe_mem pdev k info priv m).ret = some e ∧ e < 0 ∧
      e = (k.ioremap : Int) - 2 ^ k.BITS_PER_LONG ∧
      (probe_mem pdev k info priv m).info = some info1 ∧
      info1.handler = info.handler ∧ info1.irqcontrol = info.irqcontrol ∧
      info1.priv = info.priv ∧
      (probe_mem pdev k info priv m).m.trace
        = m.trace ++ [Event.platform_get_resource, Event.devm_ioremap_resource,
            Event.dev_err "failed to map memory"] ∧
      (probe_mem pdev k info priv m).m.devres = m.devres := by
  obtain ⟨h1, h2, _⟩ := PTR_ERR_neg k.BITS_PER_LONG k.ioremap hW hptr herr
  have hE : probe_mem pdev k info priv m
      = { ret := some (int_of_long (PTR_ERR k.BITS_PER_LONG k.ioremap))
          info := some
            { info with
              mem := Function.update (Function.update info.mem 0 (probe_mem0 k res)) 1
                { Function.update info.mem 0 (probe_mem0 k res) 1 with size := 0 } }
          m := ((m.emit Event.platform_get_resource).emit
            Event.devm_ioremap_resource).emit (Event.dev_err "failed to map memory") } := by
    simp [probe_mem, hres, herr]
  rw [hE]
  exact ⟨_, _, rfl, h2, h1, rfl, rfl, rfl, rfl, by simp [Machine.emit], rfl⟩

/-- On the sample device, a mapping that fails with `-EBUSY` makes attach
return -16 with neither callback installed and no private data attached. -/
theorem probe_map_failure_busy :
    (kronus_uio_probe sample_pdev busy_kernel masked_machine).ret = some (-16) ∧
    (kronus_uio_probe sample_pdev busy_kernel masked_machine).info.map
        (fun i => (i.handler, i.irqcontrol, i.priv)) = some (none, none, none) ∧
    Event.devm_uio_register_device
      ∉ (kronus_uio_probe sample_pdev busy_kernel masked_machine).m.trace := by
  decide

/-- An attach that returns 0 on a kernel of at least 32 bits leaves both
callbacks installed and the private data pointing at the mapped window. -/
theorem attach_installs_callbacks (pdev : platform_device) (k : Kernel) (m : Machine)
    (hW : 32 ≤ k.BITS_PER_LONG) (hptr : k.ioremap < 2 ^ k.BITS_PER_LONG)
    (hret : (kronus_uio_probe pdev k m).ret = some 0) :
    ∃ info1 : uio_info,
      (kronus_uio_probe pdev k m).info = some info1 ∧
      info1.priv = some { base := k.ioremap } ∧
      info1.handler = some handler_t.kronus_uio_handler ∧
      info1.irqcontrol = some irqcontrol_t.kronus_uio_irqcontrol ∧
      IS_ERR k.BITS_PER_LONG k.ioremap = false := by
  obtain ⟨info0, priv, m1, hE⟩ := kronus_uio_probe_ret_zero pdev k m hret
  rw [hE] at hret ⊢
  cases hres : pdev.mem0 with
  | none =>
    rw [(probe_mem_null_resource pdev k info0 priv m1 hres).1] at hret
    exact absurd hret (by simp)
  | some res =>
    cases herr : IS_ERR k.BITS_PER_LONG k.ioremap with
    | true =>
      obtain ⟨e, _, h1, h2, _⟩ :=
        probe_mem_map_failure pdev k info0 priv m1 res hW hptr hres herr
      rw [h1] at hret
      simp only [Option.some.injEq] at hret
      omega
    | false =>
      unfold probe_mem
      simp only [hres, herr, Bool.false_eq_true, if_false]
      split
      · exact ⟨_, rfl, rfl, rfl, rfl, trivial⟩
      · exact ⟨_, rfl, rfl, rfl, rfl, trivial⟩

/-- C8 (failing input): on the sample device-tree device without memory
resource, with every kernel service succeeding, `kronus_uio_probe` passes the
configuration and interrupt steps, looks up the memory resource and then
dereferences the `NULL` it got: it returns no error code at all. -/
theorem probe_without_mem_resource_faults :
    nomem_pdev.mem0 = none ∧
    (kronus_uio_probe nomem_pdev sample_kernel masked_machine).ret = none ∧
    (kronus_uio_probe nomem_pdev sample_kernel masked_machine).m.trace
      = [Event.devm_kzalloc, Event.of_property_read_string, Event.devm_kasprintf,
         Event.devm_kzalloc, Event.platform_get_irq_optional,
         Event.platform_get_resource] := by
  decide

/-! ## Attach: the memory descriptor -/

theorem two_pow_sub_two_pow (W j : Nat) (hj : j ≤ W) :
    2 ^ W - 2 ^ j = 2 ^ j * (2 ^ (W - j) - 1) := by
  have h : 2 ^ W = 2 ^ j * 2 ^ (W - j) := by
    rw [← pow_add]; congr 1; omega
  rw [h, Nat.mul_sub, Nat.mul_one]

/-- Masking a `W`-bit word with the bits `j .. W-1` rounds it down to a
multiple of `2 ^ j`. -/
theorem and_high_mask (W j x : Nat) (hj : j ≤ W) (hx : x < 2 ^ W) :
    x &&& (2 ^ W - 2 ^ j) = 2 ^ j * (x / 2 ^ j) := by
  apply Nat.eq_of_testBit_eq
  intro i
  rw [Nat.testBit_and, two_pow_sub_two_pow W j hj, Nat.testBit_mul_pow_two,
    Nat.testBit_mul_pow_two, Nat.testBit_two_pow_sub_one, ← Nat.shiftRight_eq_div_pow,
    Nat.testBit_shiftRight]
  by_cases hi : j ≤ i
  · have e : j + (i - j) = i := by omega
    rw [e]
    by_cases hiW : i < W
    · have : i - j < W - j := by omega
      simp [hi, this]
    · have hlt : x < 2 ^ i :=
        lt_of_lt_of_le hx (Nat.pow_le_pow_right (by norm_num) (by omega))
      have : ¬ (i - j < W - j) := by omega
      simp [hi, this, Nat.testBit_lt_two_pow hlt]
  · simp [hi]

theorem PAGE_MASK_two_pow (W j : Nat) (hj : j < W) :
    PAGE_MASK W (2 ^ j) = 2 ^ W - 2 ^ j := by
  have hlt : 2 ^ j < 2 ^ W := Nat.pow_lt_pow_right (by norm_num) hj
  have hpos : 0 < 2 ^ j := Nat.two_pow_pos j
  unfold PAGE_MASK bnot
  rw [Nat.mod_eq_of_lt (by omega)]
  omega

theorem bnot_PAGE_MASK_two_pow (W j : Nat) (hj : j < W) :
    bnot W (PAGE_MASK W (2 ^ j)) = 2 ^ j - 1 := by
  have hlt : 2 ^ j < 2 ^ W := Nat.pow_lt_pow_right (by norm_num) hj
  have hpos : 0 < 2 ^ j := Nat.two_pow_pos j
  rw [PAGE_MASK_two_pow W j hj]
  unfold bnot
  rw [Nat.mod_eq_of_lt (by omega)]
  omega

theorem uadd_of_lt (W a b : Nat) (h : a + b < 2 ^ W) : uadd W a b = a + b :=
  Nat.mod_eq_of_lt h

theorem usub_of_le (W a b : Nat) (ha : a < 2 ^ W) (hb : b ≤ a) : usub W a b = a - b := by
  unfold usub
  rw [Nat.mod_eq_of_lt ha, Nat.mod_eq_of_lt (lt_of_le_of_lt hb ha)]
  have e : a + 2 ^ W - b = (a - b) + 2 ^ W := by omega
  rw [e, Nat.add_mod_right, Nat.mod_eq_of_lt (by omega)]

/-- The descriptor of lines 127-133 for a page size `2 ^ j` when no sum leaves
the machine word. -/
theorem probe_mem0_spec (k : Kernel) (res : resource) (j : Nat)
    (hP : k.PAGE_SIZE = 2 ^ j) (hj : j < k.BITS_PER_LONG)
    (hle : res.start ≤ res.end_) (hend : res.end_ < 2 ^ k.BITS_PER_LONG)
    (hno : res.start % k.PAGE_SIZE + (res.end_ - res.start + 1) + k.PAGE_SIZE
      < 2 ^ k.BITS_PER_LONG) :
    (probe_mem0 k res).addr = k.PAGE_SIZE * (res.start / k.PAGE_SIZE) ∧
    (probe_mem0 k res).offs = res.start % k.PAGE_SIZE ∧
    (probe_mem0 k res).size = k.PAGE_SIZE *
      ((res.start % k.PAGE_SIZE + (res.end_ - res.start + 1) + k.PAGE_SIZE - 1)
        / k.PAGE_SIZE) := by
  have hpos : 0 < 2 ^ j := Nat.two_pow_pos j
  have hlt : 2 ^ j < 2 ^ k.BITS_PER_LONG := Nat.pow_lt_pow_right (by norm_num) hj
  have hstart : res.start < 2 ^ k.BITS_PER_LONG := lt_of_le_of_lt hle hend
  have hmod : res.start % 2 ^ j < 2 ^ j := Nat.mod_lt _ hpos
  rw [hP] at hno ⊢
  have hoffs : res.start &&& bnot k.BITS_PER_LONG (PAGE_MASK k.BITS_PER_LONG (2 ^ j))
      = res.start % 2 ^ j := by
    rw [bnot_PAGE_MASK_two_pow _ _ hj, Nat.and_pow_two_sub_one_eq_mod]
  have hrs : resource_size k.BITS_PER_LONG res = res.end_ - res.start + 1 := by
    unfold resource_size
    rw [usub_of_le _ _ _ hend hle, uadd_of_lt _ _ _ (by omega)]
  have hsum : usub k.BITS_PER_LONG
      (uadd k.BITS_PER_LONG
        (uadd k.BITS_PER_LONG (res.start % 2 ^ j) (res.end_ - res.start + 1)) (2 ^ j)) 1
      = res.start % 2 ^ j + (res.end_ - res.start + 1) + 2 ^ j - 1 := by
    rw [uadd_of_lt _ (res.start % 2 ^ j) (res.end_ - res.start + 1) (by omega),
      uadd_of_lt _ _ _ hno, usub_of_le _ _ _ hno (by omega)]
  refine ⟨?_, ?_, ?_⟩
  · simp only [probe_mem0, hP]
    rw [PAGE_MASK_two_pow _ _ hj, and_high_mask _ _ _ (le_of_lt hj) hstart]
  · simp only [probe_mem0, hP]
    exact hoffs
  · simp only [probe_mem0, hP]
    rw [hoffs, hrs, hsum, PAGE_MASK_two_pow _ _ hj,
      and_high_mask _ _ _ (le_of_lt hj) (by omega)]

/-- C10: let the page size be `2 ^ j` with `j` below the word width, let the
memory resource `[start, end]` have `start ≤ end` inside the machine word, and
let no sum of the computation leave the word. Then the descriptor a successful
attach leaves in slot 0 has `addr = start & ~(P-1)`, a multiple of `P`;
`offs = start & (P-1)`, below `P`, with `addr + offs = start`; `size` the
smallest multiple of `P` that is at least `offs + (end - start + 1)`; so
`[addr, addr + size)` contains `[start, end]`. Slot 1 has size 0. -/
theorem probe_memory_descriptor (pdev : platform_device) (k : Kernel) (m : Machine)
    (res : resource) (j : Nat)
    (hP : k.PAGE_SIZE = 2 ^ j) (hj : j < k.BITS_PER_LONG)
    (hres : pdev.mem0 = some res)
    (hle : res.start ≤ res.end_) (hend : res.end_ < 2 ^ k.BITS_PER_LONG)
    (hno : res.start % k.PAGE_SIZE + (res.end_ - res.start + 1) + k.PAGE_SIZE
      < 2 ^ k.BITS_PER_LONG)
    (hret : (kronus_uio_probe pdev k m).ret = some 0) :
    ∃ info1 : uio_info,
      (kronus_uio_probe pdev k m).info = some info1 ∧
      (info1.mem 0).addr = res.start &&& bnot k.BITS_PER_LONG (k.PAGE_SIZE - 1) ∧
      k.PAGE_SIZE ∣ (info1.mem 0).addr ∧
      (info1.mem 0).offs = res.start &&& (k.PAGE_SIZE - 1) ∧
      (info1.mem 0).offs < k.PAGE_SIZE ∧
      (info1.mem 0).addr + (info1.mem 0).offs = res.start ∧
      k.PAGE_SIZE ∣ (info1.mem 0).size ∧
      (info1.mem 0).offs + (res.end_ - res.start + 1) ≤ (info1.mem 0).size ∧
      (∀ n : Nat, k.PAGE_SIZE ∣ n →
        (info1.mem 0).offs + (res.end_ - res.start + 1) ≤ n → (info1.mem 0).size ≤ n) ∧
      (info1.mem 0).addr ≤ res.start ∧
      res.end_ < (info1.mem 0).addr + (info1.mem 0).size ∧
      (info1.mem 1).size = 0 := by
  obtain ⟨info0, priv, m1, hE⟩ := kronus_uio_probe_ret_zero pdev k m hret
  have hsome : (probe_mem pdev k info0 priv m1).ret ≠ none := by
    rw [← hE, hret]; simp
  obtain ⟨res1, info1, hres1, hinfo1, hmem0, hmem1⟩ :=
    probe_mem_descriptor pdev k info0 priv m1 hsome
  have hrr : res1 = res := by
    rw [hres] at hres1; exact (Option.some.inj hres1).symm
  subst hrr
  obtain ⟨haddr, hoffs, hsize⟩ := probe_mem0_spec k res1 j hP hj hle hend hno
  have hpos : 0 < k.PAGE_SIZE := by rw [hP]; exact Nat.two_pow_pos j
  have hdm := Nat.div_add_mod res1.start k.PAGE_SIZE
  have hmod := Nat.mod_lt res1.start hpos
  have hdm2 := Nat.div_add_mod
    (res1.start % k.PAGE_SIZE + (res1.end_ - res1.start + 1) + k.PAGE_SIZE - 1) k.PAGE_SIZE
  have hmod2 := Nat.mod_lt
    (res1.start % k.PAGE_SIZE + (res1.end_ - res1.start + 1) + k.PAGE_SIZE - 1) hpos
  refine ⟨info1, by rw [hE]; exact hinfo1, ?_, ?_, ?_, ?_, ?_, ?_, ?_, ?_, ?_, ?_, hmem1⟩
  · rw [hmem0]; rfl
  · rw [hmem0, haddr]; exact Dvd.intro _ rfl
  · rw [hmem0, hoffs, hP, Nat.and_pow_two_sub_one_eq_mod]
  · rw [hmem0, hoffs]; exact hmod
  · rw [hmem0, haddr, hoffs]; exact hdm
  · rw [hmem0, hsize]; exact Dvd.intro _ rfl
  · rw [hmem0, hoffs, hsize]; omega
  · intro n hn hle2
    rw [hmem0, hoffs] at hle2
    rw [hmem0, hsize]
    obtain ⟨c, rfl⟩ := hn
    apply Nat.mul_le_mul_left
    have hlt : res1.start % k.PAGE_SIZE + (res1.end_ - res1.start + 1) + k.PAGE_SIZE - 1
        < k.PAGE_SIZE * (c + 1) := by
      rw [Nat.mul_succ]; omega
    exact Nat.lt_succ_iff.1 (Nat.div_lt_of_lt_mul hlt)
  · rw [hmem0, haddr]; omega
  · rw [hmem0, haddr, hsize]; omega

theorem probe_memory_descriptor_witness :
    ∃ info1 : uio_info,
      (kronus_uio_probe unaligned_pdev sample_kernel masked_machine).info = some info1 ∧
      (info1.mem 0).addr
        = unaligned_res.start &&& bnot sample_kernel.BITS_PER_LONG (sample_kernel.PAGE_SIZE - 1) ∧
      sample_kernel.PAGE_SIZE ∣ (info1.mem 0).addr ∧
      (info1.mem 0).offs = unaligned_res.start &&& (sample_kernel.PAGE_SIZE - 1) ∧
      (info1.mem 0).offs < sample_kernel.PAGE_SIZE ∧
      (info1.mem 0).addr + (info1.mem 0).offs = unaligned_res.start ∧
      sample_kernel.PAGE_SIZE ∣ (info1.mem 0).size ∧
      (info1.mem 0).offs + (unaligned_res.end_ - unaligned_res.start + 1)
        ≤ (info1.mem 0).size ∧
      (∀ n : Nat, sample_kernel.PAGE_SIZE ∣ n →
        (info1.mem 0).offs + (unaligned_res.end_ - unaligned_res.start + 1) ≤ n →
        (info1.mem 0).size ≤ n) ∧
      (info1.mem 0).addr ≤ unaligned_res.start ∧
      unaligned_res.end_ < (info1.mem 0).addr + (info1.mem 0).size ∧
      (info1.mem 1).size = 0 :=
  probe_memory_descriptor unaligned_pdev sample_kernel masked_machine unaligned_res 12
    (by decide) (by decide) rfl (by decide) (by decide) (by decide) (by decide)

/-- The descriptor of the unaligned sample window: page 0x43C00000, offset
0xF00, two pages. -/
theorem probe_mem0_unaligned :
    (probe_mem0 sample_kernel unaligned_res).addr = 0x43C00000 ∧
    (probe_mem0 sample_kernel unaligned_res).offs = 0xF00 ∧
    (probe_mem0 sample_kernel unaligned_res).size = 0x2000 := by
  decide

/-! ## Concurrent calls: mutual exclusion -/

theorem lastStore_append (log : List (Nat × Event)) (i : Nat) (e : Event) :
    lastStore (log ++ [(i, e)]) =
      match e.storedWord with
      | some w => some (i, w)
      | none => lastStore log := by
  unfold lastStore
  rw [List.reverse_append, List.reverse_singleton, List.singleton_append,
    List.findSome?_cons]
  cases h : e.storedWord <;> simp [h]

theorem lastRelease_append (log : List (Nat × Event)) (i : Nat) (e : Event) :
    lastRelease (log ++ [(i, e)]) =
      if e.isRelease = true then some i else lastRelease log := by
  unfold lastRelease
  rw [List.reverse_append, List.reverse_singleton, List.singleton_append,
    List.findSome?_cons]
  by_cases h : e.isRelease = true <;> simp [h]

/-- The events of a call on a device whose private data is set: an acquire,
the store of the call's word to the control register, a release. The word is
`IRQ_MASKED` or `IRQ_ENABLED`. -/
theorem Call.events_shape (info : uio_info) (priv : kronus_uio_platdata)
    (hpriv : info.priv = some priv) (c : Call) :
    ∃ a r : Event,
      c.events info
        = [a, Event.iowrite32 (c.word info) (priv.base + KRONUS_CTRL_REG), r] ∧
      a.isAcquire = true ∧ r.isAcquire = false ∧ r.isRelease = true ∧
      (c.word info = KRONUS_CTRL_IRQ_MASK ∨ c.word info = KRONUS_CTRL_IRQ_EN) := by
  cases c with
  | on_interrupt irq =>
    have hev : (Call.on_interrupt irq).events info
        = [Event.spin_lock, Event.iowrite32 0 (priv.base + KRONUS_CTRL_REG),
            Event.spin_unlock] := by
      simp only [Call.events]
      rw [kronus_uio_handler_run irq info priv masked_machine hpriv]
      rfl
    have hw : (Call.on_interrupt irq).word info = 0 := by
      simp [Call.word, hev, List.findSome?_cons, Event.storedWord]
    exact ⟨Event.spin_lock, Event.spin_unlock, by rw [hw]; exact hev, rfl, rfl, rfl,
      Or.inl (by rw [hw]; rfl)⟩
  | set_irq_enabled irq_on =>
    by_cases h0 : irq_on = 0
    · have hev : (Call.set_irq_enabled irq_on).events info
          = [Event.spin_lock_irqsave, Event.iowrite32 0 (priv.base + KRONUS_CTRL_REG),
              Event.spin_unlock_irqrestore] := by
        simp only [Call.events]
        rw [kronus_uio_irqcontrol_run info priv irq_on masked_machine hpriv]
        simp [h0, spin_unlock_irqrestore, spin_lock_irqsave, iowrite32, Machine.emit,
          masked_machine, KRONUS_CTRL_IRQ_MASK]
      have hw : (Call.set_irq_enabled irq_on).word info = 0 := by
        simp [Call.word, hev, List.findSome?_cons, Event.storedWord]
      exact ⟨Event.spin_lock_irqsave, Event.spin_unlock_irqrestore, by rw [hw]; exact hev,
        rfl, rfl, rfl, Or.inl (by rw [hw]; rfl)⟩
    · have hev : (Call.set_irq_enabled irq_on).events info
          = [Event.spin_lock_irqsave,
              Event.iowrite32 0xFF0 (priv.base + KRONUS_CTRL_REG),
              Event.spin_unlock_irqrestore] := by
        simp only [Call.events]
        rw [kronus_uio_irqcontrol_run info priv irq_on masked_machine hpriv]
        simp [h0, spin_unlock_irqrestore, spin_lock_irqsave, iowrite32, Machine.emit,
          masked_machine, KRONUS_CTRL_IRQ_EN]
      have hw : (Call.set_irq_enabled irq_on).word info = 0xFF0 := by
        simp [Call.word, hev, List.findSome?_cons, Event.storedWord]
      exact ⟨Event.spin_lock_irqsave, Event.spin_unlock_irqrestore, by rw [hw]; exact hev,
        rfl, rfl, rfl, Or.inr (by rw [hw]; rfl)⟩

theorem storedWord_of_isAcquire (e : Event) (h : e.isAcquire = true) :
    e.storedWord = none := by
  cases e <;> simp_all [Event.isAcquire, Event.storedWord]

theorem storedWord_of_isRelease (e : Event) (h : e.isRelease = true) :
    e.storedWord = none := by
  cases e <;> simp_all [Event.isRelease, Event.storedWord]

/-- The invariant holds before any event. -/
theorem Inv.start (info : uio_info) (init : Nat → Nat) (calls : List Call) (ctrl : Nat) :
    Inv info init calls ctrl (Conc.start info init calls) where
  phase := fun i => Or.inl ⟨rfl, by simp [Conc.start]⟩
  mem := rfl
  stores := fun i w h => by simp [Conc.start, lastStore] at h
  commit := fun _ => rfl

/-- While the lock is free or held by call `i`, every other call has not begun
or is done. -/
theorem Inv.others_idle {info : uio_info} {init : Nat → Nat} {calls : List Call}
    {ctrl : Nat} {s : Conc} (hI : Inv info init calls ctrl s) (i j : Nat) (hj : j ≠ i)
    (hl : s.lock = none ∨ s.lock = some i) :
    s.pending j = (Conc.start info init calls).pending j ∨ s.pending j = [] := by
  rcases hI.phase j with ⟨hp, _⟩ | ⟨hp, _⟩ | ⟨c, _, hlk, _⟩ | ⟨c, _, hlk, _⟩
  · exact Or.inl hp
  · exact Or.inr hp
  · rcases hl with hl | hl
    · rw [hl] at hlk; exact absurd hlk (by simp)
    · rw [hl] at hlk; exact absurd (Option.some.inj hlk).symm hj
  · rcases hl with hl | hl
    · rw [hl] at hlk; exact absurd hlk (by simp)
    · rw [hl] at hlk; exact absurd (Option.some.inj hlk).symm hj

/-- The phase of a call other than the one that moved. -/
theorem Inv.phase_other {info : uio_info} {init : Nat → Nat} {calls : List Call}
    {ctrl : Nat} {s : Conc} (hI : Inv info init calls ctrl s) (i j : Nat) (hj : j ≠ i)
    (hl : s.lock = none ∨ s.lock = some i) (rest : List Event) (lock1 : Option Nat)
    (hl1 : lock1 = none ∨ lock1 = some i) :
    (Function.update s.pending i rest j = (Conc.start info init calls).pending j ∧
      lock1 ≠ some j) ∨
    (Function.update s.pending i rest j = [] ∧ lock1 ≠ some j) := by
  have hne : lock1 ≠ some j := by
    rcases hl1 with h | h
    · rw [h]; simp
    · rw [h]; intro hc; exact hj (Option.some.inj hc).symm
  rw [Function.update_noteq hj]
  rcases hI.others_idle i j hj hl with hp | hp
  · exact Or.inl ⟨hp, hne⟩
  · exact Or.inr ⟨hp, hne⟩

/-- A call that has not begun takes the free lock. -/
theorem Inv.acquire {info : uio_info} {priv : kronus_uio_platdata} {init : Nat → Nat}
    {calls : List Call} {s : Conc} {i : Nat} {c : Call} {a r : Event}
    (hI : Inv info init calls (priv.base + KRONUS_CTRL_REG) s)
    (hc : calls[i]? = some c)
    (hev : c.events info
      = [a, Event.iowrite32 (c.word info) (priv.base + KRONUS_CTRL_REG), r])
    (ha : a.isAcquire = true) (hl : s.lock = none) :
    Inv info init calls (priv.base + KRONUS_CTRL_REG)
      { iomem := s.iomem, lock := some i,
        pending := Function.update s.pending i
          [Event.iowrite32 (c.word info) (priv.base + KRONUS_CTRL_REG), r],
        log := s.log ++ [(i, a)] } where
  phase := fun j => by
    by_cases hj : j = i
    · subst hj
      refine Or.inr (Or.inr (Or.inl ⟨c, hc, rfl, ?_⟩))
      simp [hev]
    · rcases hI.phase_other i j hj (Or.inl hl) _ (some i) (Or.inr rfl) with h | h
      · exact Or.inl h
      · exact Or.inr (Or.inl h)
  mem := by
    simp only [lastStore_append, storedWord_of_isAcquire a ha]
    exact hI.mem
  stores := fun j w h => by
    simp only [lastStore_append, storedWord_of_isAcquire a ha] at h
    exact hI.stores j w h
  commit := fun h => by simp at h

/-- The lock holder stores its word. -/
theorem Inv.store {info : uio_info} {priv : kronus_uio_platdata} {init : Nat → Nat}
    {calls : List Call} {s : Conc} {i : Nat} {c : Call} {a r : Event}
    (hI : Inv info init calls (priv.base + KRONUS_CTRL_REG) s)
    (hc : calls[i]? = some c)
    (hev : c.events info
      = [a, Event.iowrite32 (c.word info) (priv.base + KRONUS_CTRL_REG), r])
    (hl : s.lock = some i) :
    Inv info init calls (priv.base + KRONUS_CTRL_REG)
      { iomem := Function.update s.iomem (priv.base + KRONUS_CTRL_REG) (c.word info),
        lock := s.lock,
        pending := Function.update s.pending i [r],
        log := s.log
          ++ [(i, Event.iowrite32 (c.word info) (priv.base + KRONUS_CTRL_REG))] } where
  phase := fun j => by
    by_cases hj : j = i
    · subst hj
      refine Or.inr (Or.inr (Or.inr ⟨c, hc, hl, ?_, ?_⟩))
      · simp [hev]
      · simp [lastStore_append, Event.storedWord]
    · rcases hI.phase_other i j hj (Or.inr hl) _ s.lock (Or.inr hl) with h | h
      · exact Or.inl h
      · exact Or.inr (Or.inl h)
  mem := by
    simp only [lastStore_append, Event.storedWord]
    rw [hI.mem]
    cases lastStore s.log with
    | none => rfl
    | some p => exact Function.update_idem _ _ _
  stores := fun j w h => by
    simp only [lastStore_append, Event.storedWord, Option.some.injEq, Prod.mk.injEq] at h
    obtain ⟨rfl, rfl⟩ := h
    exact ⟨c, hc, rfl⟩
  commit := fun h => by
    simp only at h
    rw [hl] at h
    exact absurd h (by simp)

/-- The lock holder releases the lock after its store. -/
theorem Inv.release {info : uio_info} {priv : kronus_uio_platdata} {init : Nat → Nat}
    {calls : List Call} {s : Conc} {i : Nat} {c : Call} {r : Event}
    (hI : Inv info init calls (priv.base + KRONUS_CTRL_REG) s)
    (hr : r.isRelease = true) (hl : s.lock = some i)
    (hls : lastStore s.log = some (i, c.word info)) :
    Inv info init calls (priv.base + KRONUS_CTRL_REG)
      { iomem := s.iomem, lock := none,
        pending := Function.update s.pending i [],
        log := s.log ++ [(i, r)] } where
  phase := fun j => by
    by_cases hj : j = i
    · subst hj
      exact Or.inr (Or.inl ⟨by simp, by simp⟩)
    · rcases hI.phase_other i j hj (Or.inr hl) _ none (Or.inl rfl) with h | h
      · exact Or.inl h
      · exact Or.inr (Or.inl h)
  mem := by
    simp only [lastStore_append, storedWord_of_isRelease r hr]
    exact hI.mem
  stores := fun j w h => by
    simp only [lastStore_append, storedWord_of_isRelease r hr] at h
    exact hI.stores j w h
  commit := fun _ => by
    simp only [lastStore_append, storedWord_of_isRelease r hr, lastRelease_append, hr,
      if_true, hls, Option.map_some']

/-- Every step of the concurrent system keeps the invariant. -/
theorem Inv.step {info : uio_info} {priv : kronus_uio_platdata} {init : Nat → Nat}
    {calls : List Call} {s s1 : Conc} {i : Nat} (hpriv : info.priv = some priv)
    (hI : Inv info init calls (priv.base + KRONUS_CTRL_REG) s)
    (hstep : s.step i = some s1) :
    Inv info init calls (priv.base + KRONUS_CTRL_REG) s1 := by
  rcases hI.phase i with ⟨hp, _⟩ | ⟨hp, _⟩ | ⟨c, hc, hl, hp⟩ | ⟨c, hc, hl, hp, hls⟩
  · simp only [Conc.start] at hp
    cases hc : calls[i]? with
    | none =>
      rw [hc] at hp
      simp [Conc.step, hp] at hstep
    | some c =>
      rw [hc] at hp
      obtain ⟨a, r, hev, ha, _, _, _⟩ := Call.events_shape info priv hpriv c
      simp only [hev] at hp
      by_cases hl : s.lock = none
      · simp only [Conc.step, hp, ha, hl, if_true, Option.some.injEq] at hstep
        rw [← hstep]
        exact hI.acquire hc hev ha hl
      · simp [Conc.step, hp, ha, hl] at hstep
  · simp [Conc.step, hp] at hstep
  · obtain ⟨a, r, hev, _, _, _, _⟩ := Call.events_shape info priv hpriv c
    simp only [hev, List.drop_succ_cons, List.drop_zero] at hp
    simp only [Conc.step, hp, Event.isAcquire, Event.isRelease, Event.store,
      Bool.false_eq_true, if_false, Option.some.injEq] at hstep
    rw [← hstep]
    exact hI.store hc hev hl
  · obtain ⟨a, r, hev, _, hra, hrr, _⟩ := Call.events_shape info priv hpriv c
    simp only [hev, List.drop_succ_cons, List.drop_zero] at hp
    simp only [Conc.step, hp, hra, hrr, Bool.false_eq_true, if_false, if_true,
      Option.some.injEq] at hstep
    rw [← hstep]
    exact hI.release hrr hl hls

/-- Every state a schedule reaches satisfies the invariant. -/
theorem Inv.run {info : uio_info} {priv : kronus_uio_platdata} {init : Nat → Nat}
    {calls : List Call} (hpriv : info.priv = some priv) (sched : List Nat) :
    ∀ (s s1 : Conc), Inv info init calls (priv.base + KRONUS_CTRL_REG) s →
      s.run sched = some s1 → Inv info init calls (priv.base + KRONUS_CTRL_REG) s1 := by
  induction sched with
  | nil =>
    intro s s1 hI hrun
    simp only [Conc.run, Option.some.injEq] at hrun
    rw [← hrun]; exact hI
  | cons i sched ih =>
    intro s s1 hI hrun
    simp only [Conc.run] at hrun
    cases hstep : s.step i with
    | none => rw [hstep] at hrun; exact absurd hrun (by simp)
    | some s2 =>
      rw [hstep] at hrun
      exact ih s2 s1 (hI.step hpriv hstep) hrun

/-- In a state that satisfies the invariant, a call inside its critical
section holds the lock. -/
theorem Inv.holder {info : uio_info} {priv : kronus_uio_platdata} {init : Nat → Nat}
    {calls : List Call} {s : Conc} (hpriv : info.priv = some priv)
    (hI : Inv info init calls (priv.base + KRONUS_CTRL_REG) s) (i : Nat)
    (hcs : s.inCritical i) : s.lock = some i := by
  obtain ⟨e, rest, hpe, hna⟩ := hcs
  rcases hI.phase i with ⟨hp, _⟩ | ⟨hp, _⟩ | ⟨c, _, hl, _⟩ | ⟨c, _, hl, _⟩
  · simp only [Conc.start] at hp
    cases hc : calls[i]? with
    | none => rw [hc, hpe] at hp; exact absurd hp (by simp)
    | some c =>
      obtain ⟨a, r, hev, ha, _, _, _⟩ := Call.events_shape info priv hpriv c
      rw [hc, hpe] at hp
      simp only [hev, List.cons.injEq] at hp
      rw [hp.1, ha] at hna
      exact absurd hna (by simp)
  · rw [hpe] at hp; exact absurd hp (by simp)
  · exact hl
  · exact hl

/-- In a state that satisfies the invariant, some call can perform its next
event as long as any call has events left. -/
theorem Inv.progress {info : uio_info} {priv : kronus_uio_platdata} {init : Nat → Nat}
    {calls : List Call} {s : Conc} (hpriv : info.priv = some priv)
    (hI : Inv info init calls (priv.base + KRONUS_CTRL_REG) s) (i : Nat)
    (hleft : s.pending i ≠ []) : ∃ j, (s.step j).isSome = true := by
  cases hlock : s.lock with
  | some h =>
    refine ⟨h, ?_⟩
    rcases hI.phase h with ⟨_, hl⟩ | ⟨_, hl⟩ | ⟨c, _, _, hp⟩ | ⟨c, _, _, hp, _⟩
    · exact absurd hlock hl
    · exact absurd hlock hl
    · obtain ⟨a, r, hev, _, _, _, _⟩ := Call.events_shape info priv hpriv c
      simp only [hev, List.drop_succ_cons, List.drop_zero] at hp
      simp [Conc.step, hp, Event.isAcquire, Event.isRelease]
    · obtain ⟨a, r, hev, _, hra, hrr, _⟩ := Call.events_shape info priv hpriv c
      simp only [hev, List.drop_succ_cons, List.drop_zero] at hp
      simp [Conc.step, hp, hra, hrr]
  | none =>
    refine ⟨i, ?_⟩
    rcases hI.phase i with ⟨hp, _⟩ | ⟨hp, _⟩ | ⟨c, _, hl, _⟩ | ⟨c, _, hl, _⟩
    · simp only [Conc.start] at hp
      cases hc : calls[i]? with
      | none => rw [hc] at hp; exact absurd hp hleft
      | some c =>
        obtain ⟨a, r, hev, ha, _, _, _⟩ := Call.events_shape info priv hpriv c
        rw [hc] at hp
        simp only [hev] at hp
        simp [Conc.step, hp, ha, hlock]
    · exact absurd hp hleft
    · rw [hlock] at hl; exact absurd hl (by simp)
    · rw [hlock] at hl; exact absurd hl (by simp)

/-- The word a call stores, read off the callbacks: `IRQ_MASKED` for the
handler, and for the enable/disable entry point `IRQ_ENABLED` when `irq_on` is
non-zero and `IRQ_MASKED` when it is 0. -/
theorem Call.word_eq (info : uio_info) (priv : kronus_uio_platdata)
    (hpriv : info.priv = some priv) (c : Call) :
    c.word info =
      match c with
      | Call.on_interrupt _ => KRONUS_CTRL_IRQ_MASK
      | Call.set_irq_enabled irq_on =>
        if irq_on ≠ 0 then KRONUS_CTRL_IRQ_EN else KRONUS_CTRL_IRQ_MASK := by
  cases c with
  | on_interrupt irq =>
    simp only [Call.word, Call.events]
    rw [kronus_uio_handler_run irq info priv masked_machine hpriv]
    rfl
  | set_irq_enabled irq_on =>
    simp only [Call.word, Call.events]
    rw [kronus_uio_irqcontrol_run info priv irq_on masked_machine hpriv]
    by_cases h0 : irq_on = 0
    · simp [h0, spin_unlock_irqrestore, spin_lock_irqsave, iowrite32, Machine.emit,
        masked_machine, KRONUS_CTRL_IRQ_MASK, List.findSome?_cons, Event.storedWord]
    · simp [h0, spin_unlock_irqrestore, spin_lock_irqsave, iowrite32, Machine.emit,
        masked_machine, KRONUS_CTRL_IRQ_EN, List.findSome?_cons, Event.storedWord]

/-- C3: let any list of `on_interrupt` and `set_irq_enabled` calls run
concurrently on a device whose private data is set, each call performing the
events of its callback, an acquire being possible only while the lock is free
and a store being one event. In every state any schedule reaches:
(1) at most one call is inside its critical section, and it holds the lock;
(2) the control register holds its initial value while no call has stored, and
otherwise exactly the word of the last store, which is the whole word
`IRQ_MASKED` or `IRQ_ENABLED` that the storing call writes, every other
register being untouched;
(3) once every call is done the lock is free and the last store is the store of
the call that released last, so the final value is the word of the call whose
critical section committed last;
(4) as long as a call has events left, some call can take its next step. -/
theorem concurrent_calls_mutually_exclusive (info : uio_info)
    (priv : kronus_uio_platdata) (init : Nat → Nat) (calls : List Call)
    (sched : List Nat) (s : Conc) (hpriv : info.priv = some priv)
    (hrun : (Conc.start info init calls).run sched = some s) :
    (∀ i j, s.inCritical i → s.inCritical j → i = j) ∧
    (∀ i, s.inCritical i → s.lock = some i) ∧
    (s.iomem (priv.base + KRONUS_CTRL_REG) = init (priv.base + KRONUS_CTRL_REG) ∨
      s.iomem (priv.base + KRONUS_CTRL_REG) = KRONUS_CTRL_IRQ_MASK ∨
      s.iomem (priv.base + KRONUS_CTRL_REG) = KRONUS_CTRL_IRQ_EN) ∧
    (lastStore s.log = none → s.iomem = init) ∧
    (∀ i w, lastStore s.log = some (i, w) →
      s.iomem = Function.update init (priv.base + KRONUS_CTRL_REG) w ∧
      s.iomem (priv.base + KRONUS_CTRL_REG) = w ∧
      ∃ c, calls[i]? = some c ∧
        w = (match c with
          | Call.on_interrupt _ => KRONUS_CTRL_IRQ_MASK
          | Call.set_irq_enabled irq_on =>
            if irq_on ≠ 0 then KRONUS_CTRL_IRQ_EN else KRONUS_CTRL_IRQ_MASK)) ∧
    ((∀ i, s.pending i = []) →
      s.lock = none ∧ (lastStore s.log).map Prod.fst = lastRelease s.log) ∧
    (∀ i, s.pending i ≠ [] → ∃ j, (s.step j).isSome = true) := by
  have hI : Inv info init calls (priv.base + KRONUS_CTRL_REG) s :=
    Inv.run hpriv sched _ s (Inv.start info init calls _) hrun
  have hmem := hI.mem
  have hstore : ∀ i w, lastStore s.log = some (i, w) →
      s.iomem = Function.update init (priv.base + KRONUS_CTRL_REG) w ∧
      s.iomem (priv.base + KRONUS_CTRL_REG) = w ∧
      ∃ c, calls[i]? = some c ∧
        w = (match c with
          | Call.on_interrupt _ => KRONUS_CTRL_IRQ_MASK
          | Call.set_irq_enabled irq_on =>
            if irq_on ≠ 0 then KRONUS_CTRL_IRQ_EN else KRONUS_CTRL_IRQ_MASK) := by
    intro i w h
    rw [h] at hmem
    obtain ⟨c, hc, hw⟩ := hI.stores i w h
    refine ⟨hmem, by rw [hmem]; simp, c, hc, ?_⟩
    rw [hw]; exact Call.word_eq info priv hpriv c
  have hlockfree : (∀ i, s.pending i = []) → s.lock = none := by
    intro hdone
    cases hlock : s.lock with
    | none => rfl
    | some h =>
      exfalso
      rcases hI.phase h with ⟨_, hl⟩ | ⟨_, hl⟩ | ⟨c, _, _, hp⟩ | ⟨c, _, _, hp, _⟩
      · exact hl hlock
      · exact hl hlock
      · obtain ⟨a, r, hev, _⟩ := Call.events_shape info priv hpriv c
        rw [hdone h, hev] at hp
        simp at hp
      · obtain ⟨a, r, hev, _⟩ := Call.events_shape info priv hpriv c
        rw [hdone h, hev] at hp
        simp at hp
  refine ⟨fun i j hi hj => ?_, fun i hi => hI.holder hpriv i hi, ?_, fun h => ?_, hstore,
    fun hdone => ⟨hlockfree hdone, hI.commit (hlockfree hdone)⟩,
    fun i hleft => hI.progress hpriv i hleft⟩
  · have h1 := hI.holder hpriv i hi
    have h2 := hI.holder hpriv j hj
    rw [h1] at h2
    exact Option.some.inj h2
  · cases hls : lastStore s.log with
    | none =>
      rw [hls] at hmem
      exact Or.inl (by rw [hmem])
    | some p =>
      obtain ⟨_, hval, c, _, hw⟩ := hstore p.1 p.2 hls
      rw [hval, hw]
      cases c with
      | on_interrupt irq => exact Or.inr (Or.inl rfl)
      | set_irq_enabled irq_on =>
        by_cases h0 : irq_on = 0
        · exact Or.inr (Or.inl (by simp [h0]))
        · exact Or.inr (Or.inr (by simp [h0]))
  · rw [h] at hmem
    exact hmem

theorem concurrent_calls_mutually_exclusive_witness :
    sample_info.priv = some sample_priv ∧
    (Conc.start sample_info sample_machine.iomem sample_calls).run sample_schedule
      = some sample_final ∧
    (∀ i j, sample_final.inCritical i → sample_final.inCritical j → i = j) ∧
    (∀ i w, lastStore sample_final.log = some (i, w) →
      sample_final.iomem (sample_priv.base + KRONUS_CTRL_REG) = w) ∧
    ((∀ i, sample_final.pending i = []) →
      sample_final.lock = none ∧
      (lastStore sample_final.log).map Prod.fst = lastRelease sample_final.log) :=
  ⟨rfl, rfl,
    (concurrent_calls_mutually_exclusive sample_info sample_priv sample_machine.iomem
      sample_calls sample_schedule sample_final rfl rfl).1,
    fun i w h =>
      ((concurrent_calls_mutually_exclusive sample_info sample_priv sample_machine.iomem
        sample_calls sample_schedule sample_final rfl rfl).2.2.2.2.1 i w h).2.1,
    (concurrent_calls_mutually_exclusive sample_info sample_priv sample_machine.iomem
      sample_calls sample_schedule sample_final rfl rfl).2.2.2.2.2.1⟩

/-- The sample schedule, evaluated: the enable's critical section, then the
interrupt's; the register ends masked, the last store and the last release are
the interrupt's. A schedule that lets the interrupt acquire while the enable
holds the lock does not run. -/
theorem sample_schedule_outcome :
    sample_final.log
      = [(1, Event.spin_lock_irqsave), (1, Event.iowrite32 0xFF0 0xF0000010),
         (1, Event.spin_unlock_irqrestore), (0, Event.spin_lock),
         (0, Event.iowrite32 0 0xF0000010), (0, Event.spin_unlock)] ∧
    sample_final.iomem 0xF0000010 = KRONUS_CTRL_IRQ_MASK ∧
    sample_final.lock = none ∧
    lastStore sample_final.log = some (0, 0) ∧
    lastRelease sample_final.log = some 0 ∧
    ((Conc.start sample_info sample_machine.iomem sample_calls).run [1, 0]).isNone = true ∧
    ((Conc.start sample_info sample_machine.iomem sample_calls).run [1, 1, 0, 1]).isNone
      = true := by
  decide

end KronusUio
